import Mathlib

/-!
Verification of `src/bundle/linux/common.rs` (cargo-bundle, linux bundling
helpers): a shallow embedding of `generate_icon_files`, `create_tar_from_dir`,
`tar_and_gzip_dir` and `total_dir_size`, together with theorems about the
deduplication invariant, PNG precedence, destination path layout, archive
entry ordering, error propagation, artifact naming, finalization order,
directory size aggregation and the frame effect of archiving.

External collaborators (the `image`, `icns`, `tar`, `libflate` crates, the
filesystem, and the helpers `common::is_retina`, `common::create_file`,
`common::copy_file` from a sibling module) are modelled as oracles: each
candidate icon file carries the results the libraries would return for it,
an environment provides the retina-filename predicate and the success or
failure of destination file creation, and filesystem effects are recorded
as explicit events.
-/

deriving instance DecidableEq for Except

/-! ## Icon resolver: data model (generate_icon_files) -/

/-- Deduplication key: `(width, height, is_high_density)`. -/
abbrev IconKey := Nat × Nat × Bool

/-- One image inside an `.icns` container, as enumerated by
`icon_family.available_icons()`: its screen width and height, its pixel
density, and the result of `get_icon_with_type` followed by `write_png`
(the PNG re-encoding of the embedded image, or an error). -/
structure IcnsIcon where
  width : Nat
  height : Nat
  density : Nat
  pngBytes : Except String (List Nat)
deriving DecidableEq

/-- A generic raster image as returned by `image::open`: dimensions, the
raw pixel buffer from `raw_pixels()` and the color type from `color()`. -/
structure Raster where
  width : Nat
  height : Nat
  pixels : List Nat
  color : Nat
deriving DecidableEq

/-- A candidate icon source file.  `path` is the file path, `ext` the result
of `Path::extension()`, `bytes` the raw bytes of the file on disk.  The
remaining fields are oracles for the external decoding libraries: `pngDims`
is what `PNGDecoder::new(File::open(..))?.dimensions()` would return,
`icns` what `icns::IconFamily::read(File::open(..))` would return, and
`raster` what `image::open` would return. -/
structure Candidate where
  path : String
  ext : Option String
  bytes : List Nat
  pngDims : Except String (Nat × Nat)
  icns : Except String (List IcnsIcon)
  raster : Except String Raster
deriving DecidableEq

/-- What was written to a destination file: a verbatim byte-for-byte copy
(`common::copy_file`), a PNG extracted and re-encoded from an `.icns`
container (`icon.write_png`), or a re-encoding of raw pixels
(`PNGEncoder::encode`). -/
inductive WriteKind where
  | copied (srcPath : String) (bytes : List Nat)
  | encodedIcns (bytes : List Nat)
  | encodedRaster (pixels : List Nat) (width height color : Nat)
deriving DecidableEq

/-- A destination file emitted by the icon resolver: its path, the
deduplication key it was registered under, and what was written into it. -/
structure FileWrite where
  path : String
  key : IconKey
  kind : WriteKind
deriving DecidableEq

/-- Environment of the icon resolver: the binary name from `Settings`, the
external retina-filename predicate `common::is_retina`, and an oracle
telling whether creating a destination file succeeds
(`common::create_file` / `common::copy_file`). -/
structure IconEnv where
  binaryName : String
  isRetina : String → Bool
  createOk : String → Bool

/-- The destination path template, embedding
`base_dir.join(format!("{}x{}{}/apps/{}.png", ...))` with
`base_dir = data_dir.join("usr/share/icons/hicolor")`;
`PathBuf::join` is modelled as appending with a `/` separator. -/
def destPath (dataDir binName : String) (width height : Nat) (dense : Bool) : String :=
  (dataDir ++ "/" ++ "usr/share/icons/hicolor") ++ "/" ++
    (toString width ++ "x" ++ toString height ++ (if dense then "@2x" else "") ++
      "/apps/" ++ binName ++ ".png")

/-- The error produced when a destination file cannot be created. -/
def createFailMsg (p : String) : String := "failed to create " ++ p

/-- Generic loop over items: process each item in order; an item may update
the seen-key set and the list of written files, or abort with an error that
is propagated immediately (the `?` operator in the loop body). -/
def runSteps {α : Type}
    (f : α → List IconKey → List FileWrite → List IconKey × List FileWrite × Option String) :
    List α → List IconKey → List FileWrite →
    List IconKey × List FileWrite × Option String
  | [], sizes, acc => (sizes, acc, none)
  | x :: rest, sizes, acc =>
    match f x sizes acc with
    | (s, a, none) => runSteps f rest s a
    | (s, a, some e) => (s, a, some e)

/-- Body of the first loop of `generate_icon_files` (the PNG pass) for a
single candidate item: an error item propagates; a non-`png`-extension
candidate is skipped; otherwise the PNG header is decoded, the key is
computed, and if the key is new it is inserted and the source file is
copied verbatim to the destination. -/
def item1 (env : IconEnv) (dataDir : String) (x : Except String Candidate)
    (sizes : List IconKey) (acc : List FileWrite) :
    List IconKey × List FileWrite × Option String :=
  match x with
  | Except.error e => (sizes, acc, some e)
  | Except.ok c =>
    if c.ext ≠ some "png" then (sizes, acc, none)
    else
      match c.pngDims with
      | Except.error e => (sizes, acc, some e)
      | Except.ok (w, h) =>
        let dense := env.isRetina c.path
        if (w, h, dense) ∈ sizes then (sizes, acc, none)
        else
          let dest := destPath dataDir env.binaryName w h dense
          if env.createOk dest then
            ((w, h, dense) :: sizes,
              acc ++ [⟨dest, (w, h, dense), WriteKind.copied c.path c.bytes⟩], none)
          else ((w, h, dense) :: sizes, acc, some (createFailMsg dest))

/-- Body of the inner loop over `icon_family.available_icons()` for a single
embedded icon: density is `pixel_density() > 1`; if the key is new it is
inserted, the embedded image is extracted and re-encoded as PNG into a
newly created destination file. -/
def stepIcns (env : IconEnv) (dataDir : String) (ic : IcnsIcon)
    (sizes : List IconKey) (acc : List FileWrite) :
    List IconKey × List FileWrite × Option String :=
  let dense := decide (1 < ic.density)
  if (ic.width, ic.height, dense) ∈ sizes then (sizes, acc, none)
  else
    let dest := destPath dataDir env.binaryName ic.width ic.height dense
    match ic.pngBytes with
    | Except.error e => ((ic.width, ic.height, dense) :: sizes, acc, some e)
    | Except.ok b =>
      if env.createOk dest then
        ((ic.width, ic.height, dense) :: sizes,
          acc ++ [⟨dest, (ic.width, ic.height, dense), WriteKind.encodedIcns b⟩], none)
      else ((ic.width, ic.height, dense) :: sizes, acc, some (createFailMsg dest))

/-- Body of the second loop of `generate_icon_files` (the fallback pass) for
a single candidate item: error items propagate; `png`-extension candidates
are skipped; `icns` containers are opened and each embedded icon processed;
any other candidate is fully decoded as a generic raster and, if its key is
new, re-encoded as PNG at the destination. -/
def item2 (env : IconEnv) (dataDir : String) (x : Except String Candidate)
    (sizes : List IconKey) (acc : List FileWrite) :
    List IconKey × List FileWrite × Option String :=
  match x with
  | Except.error e => (sizes, acc, some e)
  | Except.ok c =>
    if c.ext = some "png" then (sizes, acc, none)
    else if c.ext = some "icns" then
      match c.icns with
      | Except.error e => (sizes, acc, some e)
      | Except.ok icons => runSteps (stepIcns env dataDir) icons sizes acc
    else
      match c.raster with
      | Except.error e => (sizes, acc, some e)
      | Except.ok r =>
        let dense := env.isRetina c.path
        if (r.width, r.height, dense) ∈ sizes then (sizes, acc, none)
        else
          let dest := destPath dataDir env.binaryName r.width r.height dense
          if env.createOk dest then
            ((r.width, r.height, dense) :: sizes,
              acc ++ [⟨dest, (r.width, r.height, dense),
                WriteKind.encodedRaster r.pixels r.width r.height r.color⟩], none)
          else ((r.width, r.height, dense) :: sizes, acc, some (createFailMsg dest))

/-- Pass 1 of `generate_icon_files`: the PNG-only loop. -/
def pass1 (env : IconEnv) (dataDir : String) (cands : List (Except String Candidate))
    (sizes : List IconKey) (acc : List FileWrite) :
    List IconKey × List FileWrite × Option String :=
  runSteps (item1 env dataDir) cands sizes acc

/-- Pass 2 of `generate_icon_files`: the fallback loop over non-PNG files. -/
def pass2 (env : IconEnv) (dataDir : String) (cands : List (Except String Candidate))
    (sizes : List IconKey) (acc : List FileWrite) :
    List IconKey × List FileWrite × Option String :=
  runSteps (item2 env dataDir) cands sizes acc

/-- `generate_icon_files`: run the PNG pass with an empty seen-set, then, if
it did not fail, the fallback pass over the same candidate sequence with the
seen-set and writes carried over.  Returns the destination files written (in
order) and `some e` if the function returned early with error `e`. -/
def generateIconFiles (env : IconEnv) (dataDir : String)
    (cands : List (Except String Candidate)) : List FileWrite × Option String :=
  match pass1 env dataDir cands [] [] with
  | (_, acc, some e) => (acc, some e)
  | (sizes, acc, none) =>
    match pass2 env dataDir cands sizes acc with
    | (_, acc', r) => (acc', r)

/-! ## Archive streamer: data model (create_tar_from_dir, tar_and_gzip_dir) -/

/-- A filesystem tree: a file with its byte contents, or a directory with
its own metadata length (the `metadata().len()` of the directory entry
itself, filesystem dependent) and its children. -/
inductive FsTree where
  | file (name : String) (content : List Nat)
  | dir (name : String) (meta : Nat) (children : List FsTree)

/-- The name of the root node of a tree. -/
def treeName : FsTree → String
  | FsTree.file n _ => n
  | FsTree.dir n _ _ => n

/-- What a walked directory entry is: a file (with contents) or a directory
(with its metadata length). -/
inductive EKind where
  | file (content : List Nat)
  | dir (meta : Nat)
deriving DecidableEq

/-- One entry yielded by `WalkDir`: its full path (as components) and kind. -/
structure WalkEntry where
  path : List String
  kind : EKind
deriving DecidableEq

/-- `WalkDir` enumeration of a forest of trees rooted under prefix `pfx`,
in depth-first order with each directory yielded before its contents. -/
def walkForest : List String → List FsTree → List WalkEntry
  | _, [] => []
  | pfx, FsTree.file n c :: ts => ⟨pfx ++ [n], EKind.file c⟩ :: walkForest pfx ts
  | pfx, FsTree.dir n m cs :: ts =>
      ⟨pfx ++ [n], EKind.dir m⟩ :: (walkForest (pfx ++ [n]) cs ++ walkForest pfx ts)

/-- `WalkDir::new(p)` on the tree rooted at path `p`: the root entry itself
(whose path is exactly `p`) followed by the walk of its children. -/
def walkAt (p : List String) : FsTree → List WalkEntry
  | FsTree.file _ c => [⟨p, EKind.file c⟩]
  | FsTree.dir _ m cs => ⟨p, EKind.dir m⟩ :: walkForest p cs

/-- Well-formedness of a real filesystem forest: sibling names are distinct
at every level (a directory cannot contain two entries with the same name). -/
def wfForest : List FsTree → Bool
  | [] => true
  | FsTree.file n _ :: ts => decide (n ∉ List.map treeName ts) && wfForest ts
  | FsTree.dir n _ cs :: ts =>
      decide (n ∉ List.map treeName ts) && wfForest cs && wfForest ts

/-- Well-formedness of the tree below the root node. -/
def wfChildren : FsTree → Bool
  | FsTree.file _ _ => true
  | FsTree.dir _ _ cs => wfForest cs

/-- An entry of the produced tar archive: a directory header or a file
header plus contents, at a path relative to the source directory. -/
inductive TarEntry where
  | dir (rel : List String)
  | file (rel : List String) (content : List Nat)
deriving DecidableEq

/-- The relative path of a tar entry. -/
def TarEntry.rel : TarEntry → List String
  | TarEntry.dir r => r
  | TarEntry.file r _ => r

/-- Whether a tar entry is a directory header. -/
def TarEntry.isDir : TarEntry → Bool
  | TarEntry.dir _ => true
  | TarEntry.file _ _ => false

/-- The loop body of `create_tar_from_dir` for one walked entry: the root
itself (`src_path == src_dir`) is skipped with `continue`; otherwise the
source-directory prefix is stripped and a directory or file entry appended. -/
def tarItem (srcDir : List String) (e : WalkEntry) : Option TarEntry :=
  if e.path = srcDir then none
  else
    match e.kind with
    | EKind.dir _ => some (TarEntry.dir (e.path.drop srcDir.length))
    | EKind.file c => some (TarEntry.file (e.path.drop srcDir.length) c)

/-- `create_tar_from_dir`: the stream of archive entries appended to the tar
builder while walking the tree rooted at `srcDir`. -/
def createTarFromDir (srcDir : List String) (t : FsTree) : List TarEntry :=
  (walkAt srcDir t).filterMap (tarItem srcDir)

/-! ## tar_and_gzip_dir: path computation and effect trace -/

/-- Scan a reversed character list for the first `.` (the last `.` of the
original list), returning the characters before it (still reversed), or
`none` when there is no dot.  Used to embed `Path::file_stem`. -/
def dropExtRev : List Char → Option (List Char)
  | [] => none
  | c :: rest => if c = '.' then some rest else dropExtRev rest

/-- `Path::file_stem` on the characters of a file name: the portion before
the last `.`, except that a name with no dot, or whose only dot is its
leading character, is its own stem. -/
def stemChars (cs : List Char) : List Char :=
  match dropExtRev cs.reverse with
  | none => cs
  | some rest => if rest = [] then cs else rest.reverse

/-- `set_extension("tar.gz")` on a file name: the stem followed by
`.tar.gz`. -/
def setTarGzExt (name : String) : String :=
  String.mk (stemChars name.data ++ ".tar.gz".data)

/-- `src_dir.with_extension("tar.gz")`: replace the extension of the final
path component (an empty path is returned unchanged). -/
def withTarGzExt : List String → List String
  | [] => []
  | [n] => [setTarGzExt n]
  | n :: ns => n :: withTarGzExt ns

/-- Filesystem / writer-stack events emitted by the archiving functions, in
program order.  `tarFinalize` is the tar trailer written by
`tar_builder.into_inner()`, `gzipFinish` the compressor trailer written by
`gzip_encoder.finish()`, `fileFlush` the `dest_file.flush()` call.
`removeDirAll` models a recursive directory deletion; the code never emits
it. -/
inductive Event where
  | createFile (p : List String)
  | openRead (p : List String)
  | appendDir (rel : List String)
  | appendFile (rel : List String) (content : List Nat)
  | tarFinalize
  | gzipFinish
  | fileFlush
  | removeDirAll (p : List String)
deriving DecidableEq

/-- Whether an event is a file creation. -/
def Event.isCreate : Event → Bool
  | Event.createFile _ => true
  | _ => false

/-- The events emitted while appending walked entries to the tar builder:
nothing for the skipped root; a directory-header append for a directory;
a source-file open followed by a file append for a file. -/
def entryEvents (srcDir : List String) : List WalkEntry → List Event
  | [] => []
  | e :: es =>
    (if e.path = srcDir then []
     else
       match e.kind with
       | EKind.dir _ => [Event.appendDir (e.path.drop srcDir.length)]
       | EKind.file c => [Event.openRead e.path,
                          Event.appendFile (e.path.drop srcDir.length) c]) ++
    entryEvents srcDir es

/-- Failure oracle for the fallible steps of `tar_and_gzip_dir`:
destination file creation, writing the gzip header (`gzip::Encoder::new`),
the tar finalization (`into_inner`), the gzip finalization (`finish`), and
the final flush. -/
structure TarOracle where
  createOk : Bool
  gzipNewOk : Bool
  tarFinOk : Bool
  gzipFinOk : Bool
  flushOk : Bool
deriving DecidableEq

/-- `tar_and_gzip_dir`: compute the destination path with extension
`tar.gz`, create the destination file, wrap it in a gzip encoder, stream
the tar entries of the walked source tree into it, finalize the tar
container, finish the compressor, flush the file, and return the
destination path.  The second component is the trace of events that
actually happened before returning. -/
def tarAndGzipDir (o : TarOracle) (srcDir : List String) (t : FsTree) :
    Except String (List String) × List Event :=
  let dest := withTarGzExt srcDir
  if o.createOk then
    if o.gzipNewOk then
      let evs := Event.createFile dest :: entryEvents srcDir (walkAt srcDir t)
      if o.tarFinOk then
        if o.gzipFinOk then
          if o.flushOk then
            (Except.ok dest, evs ++ [Event.tarFinalize, Event.gzipFinish, Event.fileFlush])
          else (Except.error "flush failed", evs ++ [Event.tarFinalize, Event.gzipFinish])
        else (Except.error "gzip finish failed", evs ++ [Event.tarFinalize])
      else (Except.error "tar finalize failed", evs)
    else (Except.error "gzip header failed", [Event.createFile dest])
  else (Except.error "failed to create destination file", [])

/-! ## A small filesystem semantics for the event trace -/

/-- A filesystem node: a (possibly artifact) file or a directory. -/
inductive FsNode where
  | fileNode (content : List Nat)
  | dirNode
deriving DecidableEq

/-- Apply one event to a flat filesystem (an association list from paths to
nodes; lookups take the first match, so consing overwrites).  Only
`createFile` and `removeDirAll` mutate the filesystem; reads, appends into
the open destination handle, and finalization steps do not create or
delete paths. -/
def applyEvent (fs : List (List String × FsNode)) : Event → List (List String × FsNode)
  | Event.createFile p => (p, FsNode.fileNode []) :: fs
  | Event.removeDirAll p => fs.filter (fun pr => decide (¬ (p <+: pr.1)))
  | _ => fs

/-- Apply a trace of events in order. -/
def applyTrace (fs : List (List String × FsNode)) (evs : List Event) :
    List (List String × FsNode) :=
  evs.foldl applyEvent fs

/-- Look up the node stored at path `q` (first match wins). -/
def lookupNode : List (List String × FsNode) → List String → Option FsNode
  | [], _ => none
  | (p, n) :: rest, q => if p = q then some n else lookupNode rest q

/-! ## total_dir_size -/

/-- `metadata().len()` of a walked entry: the byte length for a file, the
directory's own metadata length for a directory. -/
def entryLen : WalkEntry → Nat
  | ⟨_, EKind.file c⟩ => c.length
  | ⟨_, EKind.dir m⟩ => m

/-- `total_dir_size`: walk the tree rooted at path `p` (the root entry
included) and sum the `metadata().len()` of every enumerated entry. -/
def totalDirSize (p : List String) (t : FsTree) : Nat :=
  (walkAt p t).foldl (fun acc e => acc + entryLen e) 0

/-- Recursive specification of the aggregate size: a file contributes its
byte length, a directory its own metadata length plus its children. -/
def sumLensForest : List FsTree → Nat
  | [] => 0
  | FsTree.file _ c :: ts => c.length + sumLensForest ts
  | FsTree.dir _ m cs :: ts => (m + sumLensForest cs) + sumLensForest ts

/-- Aggregate size of a single tree. -/
def sumLens : FsTree → Nat
  | FsTree.file _ c => c.length
  | FsTree.dir _ m cs => m + sumLensForest cs

/-- An event preserves the filesystem node at `q` when it neither creates a
file at `q` nor removes a subtree containing `q`. -/
def evPreserves (q : List String) : Event → Prop
  | Event.createFile p2 => p2 ≠ q
  | Event.removeDirAll p2 => ¬ (p2 <+: q)
  | _ => True

/-- The shapes of events `tar_and_gzip_dir` can emit: one creation of the
destination artifact, tar entry appends and source reads, and the three
finalization steps.  In particular it never emits a deletion. -/
def TarTraceEvent (srcDir : List String) (ev : Event) : Prop :=
  ev = Event.createFile (withTarGzExt srcDir) ∨ (∃ r, ev = Event.appendDir r) ∨
  (∃ r, ev = Event.openRead r) ∨ (∃ r c, ev = Event.appendFile r c) ∨
  ev = Event.tarFinalize ∨ ev = Event.gzipFinish ∨ ev = Event.fileFlush

/-- The canonical tar entry of a walked entry. -/
def tarOf (srcDir : List String) (e : WalkEntry) : TarEntry :=
  match e.kind with
  | EKind.dir _ => TarEntry.dir (e.path.drop srcDir.length)
  | EKind.file c => TarEntry.file (e.path.drop srcDir.length) c

/-! ## Proof-side predicates and concrete witness data -/

/-- Invariant packaging for one processing step or loop: the writes grow by
a suffix `new`; the seen-key set grows monotonically; every new write
satisfies `P`, has its key registered afterwards, and had a key that was
not registered before; and the new writes have pairwise distinct keys. -/
def StepOK (P : FileWrite → Prop) (sizes : List IconKey) (acc : List FileWrite)
    (out : List IconKey × List FileWrite × Option String) : Prop :=
  ∃ new, out.2.1 = acc ++ new ∧ (∀ k ∈ sizes, k ∈ out.1) ∧
    (∀ w ∈ new, P w ∧ w.key ∈ out.1 ∧ w.key ∉ sizes) ∧
    new.Pairwise (fun a b => a.key ≠ b.key)

/-- Every write produced by the PNG pass: it is a verbatim copy of some
`png`-extension candidate of the input list whose decoded dimensions and
density class match the write's key, and its path follows the template. -/
def FromPngPass (env : IconEnv) (dataDir : String)
    (cands : List (Except String Candidate)) (w : FileWrite) : Prop :=
  (∃ c, Except.ok c ∈ cands ∧ c.ext = some "png" ∧
      c.pngDims = Except.ok (w.key.1, w.key.2.1) ∧
      w.key.2.2 = env.isRetina c.path ∧
      w.kind = WriteKind.copied c.path c.bytes) ∧
  w.path = destPath dataDir env.binaryName w.key.1 w.key.2.1 w.key.2.2

/-- Every write produced by the fallback pass: it is a re-encoding, never a
verbatim copy, and its path follows the template. -/
def FromFallbackPass (env : IconEnv) (dataDir : String) (w : FileWrite) : Prop :=
  (∀ p b, w.kind ≠ WriteKind.copied p b) ∧
  w.path = destPath dataDir env.binaryName w.key.1 w.key.2.1 w.key.2.2

/-- Every registered key has a corresponding written file. -/
def KeysCovered (sizes : List IconKey) (acc : List FileWrite) : Prop :=
  ∀ k ∈ sizes, ∃ w ∈ acc, w.key = k

/-- Witness environment: binary name `app`, nothing is retina-named, every
destination file creation succeeds. -/
def wEnv : IconEnv := ⟨"app", fun _ => false, fun _ => true⟩

/-- Witness candidate: a 32x32 PNG file. -/
def wPng : Candidate :=
  ⟨"icon.png", some "png", [1, 2, 3], Except.ok (32, 32),
    Except.error "not an icns", Except.error "unused"⟩

/-- Witness candidate: an `.icns` container offering the same 32x32 size. -/
def wIcns : Candidate :=
  ⟨"icon.icns", some "icns", [9, 9], Except.error "not a png",
    Except.ok [⟨32, 32, 1, Except.ok [7, 7]⟩], Except.error "unused"⟩

/-- Witness candidate list: the PNG first, then the icns container. -/
def wList : List (Except String Candidate) := [Except.ok wPng, Except.ok wIcns]

/-- Witness candidate: an uppercase `.PNG` file, decodable only as a
generic raster (16x16, 3 raw pixels, color type 2). -/
def wPngUpper : Candidate :=
  ⟨"icon.PNG", some "PNG", [4, 4], Except.error "header not read",
    Except.error "not an icns", Except.ok ⟨16, 16, [5, 5, 5], 2⟩⟩

/-- Witness source tree: `foo` containing a 4-byte file and a subdirectory
with another 4-byte file. -/
def wTree : FsTree :=
  FsTree.dir "foo" 10
    [FsTree.file "a.txt" [1, 2, 3, 4],
     FsTree.dir "sub" 12 [FsTree.file "b.txt" [5, 6, 7, 8]]]

/-- Witness oracle: every fallible step succeeds. -/
def wOracle : TarOracle := ⟨true, true, true, true, true⟩

/-- Witness oracle: the gzip `finish` step fails. -/
def wOracleGzipFail : TarOracle := ⟨true, true, true, false, true⟩

/-- Witness starting filesystem: the source directory and a file in it. -/
def wFs : List (List String × FsNode) :=
  [(["tmp", "foo"], FsNode.dirNode),
   (["tmp", "foo", "a.txt"], FsNode.fileNode [1, 2, 3, 4])]

/-- Witness candidate: a `.png` file whose header fails to decode. -/
def wPngBad : Candidate :=
  ⟨"bad.png", some "png", [0], Except.error "corrupt header",
    Except.error "not an icns", Except.error "unused"⟩

/-- Witness candidate: a `.bmp` file that fails to decode as a raster. -/
def wRasterBad : Candidate :=
  ⟨"bad.bmp", some "bmp", [0], Except.error "not a png",
    Except.error "not an icns", Except.error "unsupported color depth"⟩

/-- Witness environment in which destination file creation always fails. -/
def wEnvNoCreate : IconEnv := ⟨"app", fun _ => false, fun _ => false⟩

/-- Witness candidate: an `.icns` file whose container fails to open or
decode. -/
def wIcnsBad : Candidate :=
  ⟨"bad.icns", some "icns", [0], Except.error "not a png",
    Except.error "corrupt icns container", Except.error "unused"⟩

/-- Witness candidate: an `.icns` container whose single embedded 64x64
icon fails to extract. -/
def wIcnsExtractBad : Candidate :=
  ⟨"partial.icns", some "icns", [0], Except.error "not a png",
    Except.ok [⟨64, 64, 1, Except.error "broken embedded icon"⟩],
    Except.error "unused"⟩

/-! ## Generic lemmas about the processing loops -/

theorem runSteps_ok {α : Type} (P : FileWrite → Prop)
    (f : α → List IconKey → List FileWrite → List IconKey × List FileWrite × Option String) :
    ∀ (l : List α) (sizes : List IconKey) (acc : List FileWrite),
      (∀ x ∈ l, ∀ s a, StepOK P s a (f x s a)) →
      StepOK P sizes acc (runSteps f l sizes acc) := by
  intro l
  induction l with
  | nil =>
    intro sizes acc _
    exact ⟨[], by simp [runSteps], fun k hk => hk, by simp, List.Pairwise.nil⟩
  | cons x rest ih =>
    intro sizes acc hf
    have hx := hf x (by simp) sizes acc
    rcases hout : f x sizes acc with ⟨s1, a1, r1⟩
    rw [hout] at hx
    obtain ⟨new1, hacc1, hmono1, hprops1, hpw1⟩ := hx
    cases r1 with
    | some e =>
      refine ⟨new1, ?_, ?_, ?_, hpw1⟩
      · simp [runSteps, hout]; exact hacc1
      · intro k hk; simpa [runSteps, hout] using hmono1 k hk
      · intro w hw
        have := hprops1 w hw
        simpa [runSteps, hout] using this
    | none =>
      dsimp only at hacc1 hmono1 hprops1
      have hrec : runSteps f (x :: rest) sizes acc = runSteps f rest s1 a1 := by
        simp [runSteps, hout]
      have hih := ih s1 a1 (fun y hy s a => hf y (by simp [hy]) s a)
      obtain ⟨new2, hacc2, hmono2, hprops2, hpw2⟩ := hih
      refine ⟨new1 ++ new2, ?_, ?_, ?_, ?_⟩
      · rw [hrec, hacc2, hacc1, List.append_assoc]
      · intro k hk
        rw [hrec]
        exact hmono2 k (hmono1 k hk)
      · intro w hw
        rw [hrec]
        rcases List.mem_append.1 hw with hw1 | hw2
        · obtain ⟨hP, hkin, hknot⟩ := hprops1 w hw1
          exact ⟨hP, hmono2 _ hkin, hknot⟩
        · obtain ⟨hP, hkin, hknot⟩ := hprops2 w hw2
          refine ⟨hP, hkin, fun hk => hknot (hmono1 _ hk)⟩
      · rw [List.pairwise_append]
        refine ⟨hpw1, hpw2, ?_⟩
        intro a ha b hb heq
        obtain ⟨_, hain, _⟩ := hprops1 a ha
        obtain ⟨_, _, hbnot⟩ := hprops2 b hb
        exact hbnot (heq ▸ hain)

theorem runSteps_append {α : Type}
    (f : α → List IconKey → List FileWrite → List IconKey × List FileWrite × Option String) :
    ∀ (l1 l2 : List α) (sizes : List IconKey) (acc : List FileWrite),
      runSteps f (l1 ++ l2) sizes acc =
        match runSteps f l1 sizes acc with
        | (s, a, none) => runSteps f l2 s a
        | (s, a, some e) => (s, a, some e) := by
  intro l1
  induction l1 with
  | nil => intro l2 sizes acc; simp [runSteps]
  | cons x rest ih =>
    intro l2 sizes acc
    rcases hout : f x sizes acc with ⟨s1, a1, r1⟩
    cases r1 with
    | some e => simp [runSteps, hout]
    | none => simp [runSteps, hout, ih]

theorem runSteps_err_isSome {α : Type}
    (f : α → List IconKey → List FileWrite → List IconKey × List FileWrite × Option String)
    (x : α) (hx : ∀ s a, ((f x s a).2.2).isSome) :
    ∀ (l : List α) (sizes : List IconKey) (acc : List FileWrite),
      x ∈ l → ((runSteps f l sizes acc).2.2).isSome := by
  intro l
  induction l with
  | nil => intro sizes acc h; cases h
  | cons y rest ih =>
    intro sizes acc hmem
    rcases hout : f y sizes acc with ⟨s1, a1, r1⟩
    cases r1 with
    | some e => simp [runSteps, hout]
    | none =>
      rcases List.mem_cons.1 hmem with rfl | hrest
      · have := hx sizes acc
        rw [hout] at this
        simp at this
      · simpa [runSteps, hout] using ih s1 a1 hrest

theorem runSteps_covered {α : Type}
    (f : α → List IconKey → List FileWrite → List IconKey × List FileWrite × Option String)
    (hf : ∀ x s a, ((f x s a).2.2) = none → KeysCovered s a →
      KeysCovered (f x s a).1 (f x s a).2.1) :
    ∀ (l : List α) (sizes : List IconKey) (acc : List FileWrite),
      ((runSteps f l sizes acc).2.2) = none → KeysCovered sizes acc →
      KeysCovered (runSteps f l sizes acc).1 (runSteps f l sizes acc).2.1 := by
  intro l
  induction l with
  | nil => intro sizes acc _ h; simpa [runSteps] using h
  | cons x rest ih =>
    intro sizes acc hnone hcov
    rcases hout : f x sizes acc with ⟨s1, a1, r1⟩
    cases r1 with
    | some e =>
      rw [show runSteps f (x :: rest) sizes acc = (s1, a1, some e) by
        simp [runSteps, hout]] at hnone
      cases hnone
    | none =>
      have hstep := hf x sizes acc (by rw [hout]) hcov
      rw [hout] at hstep
      have hrw : runSteps f (x :: rest) sizes acc = runSteps f rest s1 a1 := by
        simp [runSteps, hout]
      rw [hrw] at hnone ⊢
      exact ih s1 a1 hnone hstep

/-! ## Branch equations for the loop bodies -/

theorem item1_eq_err (env : IconEnv) (dd e : String) (s : List IconKey) (a : List FileWrite) :
    item1 env dd (Except.error e) s a = (s, a, some e) := rfl

theorem item1_eq_skip (env : IconEnv) (dd : String) (c : Candidate) (s : List IconKey)
    (a : List FileWrite) (hx : ¬ c.ext = some "png") :
    item1 env dd (Except.ok c) s a = (s, a, none) := by
  simp [item1, hx]

theorem item1_eq_dimserr (env : IconEnv) (dd : String) (c : Candidate) (s : List IconKey)
    (a : List FileWrite) (e : String) (hx : c.ext = some "png")
    (hd : c.pngDims = Except.error e) :
    item1 env dd (Except.ok c) s a = (s, a, some e) := by
  simp [item1, hx, hd]

theorem item1_eq_old (env : IconEnv) (dd : String) (c : Candidate) (s : List IconKey)
    (a : List FileWrite) (w ht : Nat) (hx : c.ext = some "png")
    (hd : c.pngDims = Except.ok (w, ht)) (hm : (w, ht, env.isRetina c.path) ∈ s) :
    item1 env dd (Except.ok c) s a = (s, a, none) := by
  simp [item1, hx, hd, hm]

theorem item1_eq_new (env : IconEnv) (dd : String) (c : Candidate) (s : List IconKey)
    (a : List FileWrite) (w ht : Nat) (hx : c.ext = some "png")
    (hd : c.pngDims = Except.ok (w, ht)) (hm : (w, ht, env.isRetina c.path) ∉ s)
    (hcr : env.createOk (destPath dd env.binaryName w ht (env.isRetina c.path)) = true) :
    item1 env dd (Except.ok c) s a =
      ((w, ht, env.isRetina c.path) :: s,
        a ++ [⟨destPath dd env.binaryName w ht (env.isRetina c.path),
          (w, ht, env.isRetina c.path), WriteKind.copied c.path c.bytes⟩], none) := by
  simp [item1, hx, hd, hm, hcr]

theorem item1_eq_newfail (env : IconEnv) (dd : String) (c : Candidate) (s : List IconKey)
    (a : List FileWrite) (w ht : Nat) (hx : c.ext = some "png")
    (hd : c.pngDims = Except.ok (w, ht)) (hm : (w, ht, env.isRetina c.path) ∉ s)
    (hcr : env.createOk (destPath dd env.binaryName w ht (env.isRetina c.path)) = false) :
    item1 env dd (Except.ok c) s a =
      ((w, ht, env.isRetina c.path) :: s, a,
        some (createFailMsg (destPath dd env.binaryName w ht (env.isRetina c.path)))) := by
  simp [item1, hx, hd, hm, hcr]

theorem stepIcns_eq_old (env : IconEnv) (dd : String) (ic : IcnsIcon) (s : List IconKey)
    (a : List FileWrite) (hm : (ic.width, ic.height, decide (1 < ic.density)) ∈ s) :
    stepIcns env dd ic s a = (s, a, none) := by
  simp [stepIcns, hm]

theorem stepIcns_eq_geterr (env : IconEnv) (dd : String) (ic : IcnsIcon) (s : List IconKey)
    (a : List FileWrite) (e : String)
    (hm : (ic.width, ic.height, decide (1 < ic.density)) ∉ s)
    (hb : ic.pngBytes = Except.error e) :
    stepIcns env dd ic s a = ((ic.width, ic.height, decide (1 < ic.density)) :: s, a, some e) := by
  simp [stepIcns, hm, hb]

theorem stepIcns_eq_new (env : IconEnv) (dd : String) (ic : IcnsIcon) (s : List IconKey)
    (a : List FileWrite) (b : List Nat)
    (hm : (ic.width, ic.height, decide (1 < ic.density)) ∉ s)
    (hb : ic.pngBytes = Except.ok b)
    (hcr : env.createOk (destPath dd env.binaryName ic.width ic.height
      (decide (1 < ic.density))) = true) :
    stepIcns env dd ic s a =
      ((ic.width, ic.height, decide (1 < ic.density)) :: s,
        a ++ [⟨destPath dd env.binaryName ic.width ic.height (decide (1 < ic.density)),
          (ic.width, ic.height, decide (1 < ic.density)), WriteKind.encodedIcns b⟩], none) := by
  simp [stepIcns, hm, hb, hcr]

theorem stepIcns_eq_newfail (env : IconEnv) (dd : String) (ic : IcnsIcon) (s : List IconKey)
    (a : List FileWrite) (b : List Nat)
    (hm : (ic.width, ic.height, decide (1 < ic.density)) ∉ s)
    (hb : ic.pngBytes = Except.ok b)
    (hcr : env.createOk (destPath dd env.binaryName ic.width ic.height
      (decide (1 < ic.density))) = false) :
    stepIcns env dd ic s a =
      ((ic.width, ic.height, decide (1 < ic.density)) :: s, a,
        some (createFailMsg (destPath dd env.binaryName ic.width ic.height
          (decide (1 < ic.density))))) := by
  simp [stepIcns, hm, hb, hcr]

theorem item2_eq_err (env : IconEnv) (dd e : String) (s : List IconKey) (a : List FileWrite) :
    item2 env dd (Except.error e) s a = (s, a, some e) := rfl

theorem item2_eq_skip (env : IconEnv) (dd : String) (c : Candidate) (s : List IconKey)
    (a : List FileWrite) (hx : c.ext = some "png") :
    item2 env dd (Except.ok c) s a = (s, a, none) := by
  simp [item2, hx]

theorem item2_eq_icnserr (env : IconEnv) (dd : String) (c : Candidate) (s : List IconKey)
    (a : List FileWrite) (e : String) (hx : ¬ c.ext = some "png")
    (hi : c.ext = some "icns") (he : c.icns = Except.error e) :
    item2 env dd (Except.ok c) s a = (s, a, some e) := by
  simp [item2, hx, hi, he]

theorem item2_eq_icns (env : IconEnv) (dd : String) (c : Candidate) (s : List IconKey)
    (a : List FileWrite) (icons : List IcnsIcon) (hx : ¬ c.ext = some "png")
    (hi : c.ext = some "icns") (he : c.icns = Except.ok icons) :
    item2 env dd (Except.ok c) s a = runSteps (stepIcns env dd) icons s a := by
  simp [item2, hx, hi, he]

theorem item2_eq_rastererr (env : IconEnv) (dd : String) (c : Candidate) (s : List IconKey)
    (a : List FileWrite) (e : String) (hx : ¬ c.ext = some "png")
    (hi : ¬ c.ext = some "icns") (he : c.raster = Except.error e) :
    item2 env dd (Except.ok c) s a = (s, a, some e) := by
  simp [item2, hx, hi, he]

theorem item2_eq_rasterold (env : IconEnv) (dd : String) (c : Candidate) (s : List IconKey)
    (a : List FileWrite) (r : Raster) (hx : ¬ c.ext = some "png")
    (hi : ¬ c.ext = some "icns") (he : c.raster = Except.ok r)
    (hm : (r.width, r.height, env.isRetina c.path) ∈ s) :
    item2 env dd (Except.ok c) s a = (s, a, none) := by
  simp [item2, hx, hi, he, hm]

theorem item2_eq_rasternew (env : IconEnv) (dd : String) (c : Candidate) (s : List IconKey)
    (a : List FileWrite) (r : Raster) (hx : ¬ c.ext = some "png")
    (hi : ¬ c.ext = some "icns") (he : c.raster = Except.ok r)
    (hm : (r.width, r.height, env.isRetina c.path) ∉ s)
    (hcr : env.createOk (destPath dd env.binaryName r.width r.height
      (env.isRetina c.path)) = true) :
    item2 env dd (Except.ok c) s a =
      ((r.width, r.height, env.isRetina c.path) :: s,
        a ++ [⟨destPath dd env.binaryName r.width r.height (env.isRetina c.path),
          (r.width, r.height, env.isRetina c.path),
          WriteKind.encodedRaster r.pixels r.width r.height r.color⟩], none) := by
  simp [item2, hx, hi, he, hm, hcr]

theorem item2_eq_rasternewfail (env : IconEnv) (dd : String) (c : Candidate) (s : List IconKey)
    (a : List FileWrite) (r : Raster) (hx : ¬ c.ext = some "png")
    (hi : ¬ c.ext = some "icns") (he : c.raster = Except.ok r)
    (hm : (r.width, r.height, env.isRetina c.path) ∉ s)
    (hcr : env.createOk (destPath dd env.binaryName r.width r.height
      (env.isRetina c.path)) = false) :
    item2 env dd (Except.ok c) s a =
      ((r.width, r.height, env.isRetina c.path) :: s, a,
        some (createFailMsg (destPath dd env.binaryName r.width r.height
          (env.isRetina c.path)))) := by
  simp [item2, hx, hi, he, hm, hcr]

/-! ## Step invariants -/

theorem item1_ok (env : IconEnv) (dd : String) (cands : List (Except String Candidate)) :
    ∀ x ∈ cands, ∀ s a, StepOK (FromPngPass env dd cands) s a (item1 env dd x s a) := by
  intro x hx s a
  cases x with
  | error e =>
    rw [item1_eq_err]
    exact ⟨[], by simp, fun k hk => hk, by simp, List.Pairwise.nil⟩
  | ok c =>
    by_cases hext : c.ext = some "png"
    · cases hd : c.pngDims with
      | error e =>
        rw [item1_eq_dimserr env dd c s a e hext hd]
        exact ⟨[], by simp, fun k hk => hk, by simp, List.Pairwise.nil⟩
      | ok wh =>
        rcases wh with ⟨w, ht⟩
        by_cases hm : (w, ht, env.isRetina c.path) ∈ s
        · rw [item1_eq_old env dd c s a w ht hext hd hm]
          exact ⟨[], by simp, fun k hk => hk, by simp, List.Pairwise.nil⟩
        · by_cases hcr : env.createOk (destPath dd env.binaryName w ht (env.isRetina c.path)) = true
          · rw [item1_eq_new env dd c s a w ht hext hd hm hcr]
            refine ⟨[⟨destPath dd env.binaryName w ht (env.isRetina c.path),
              (w, ht, env.isRetina c.path), WriteKind.copied c.path c.bytes⟩], rfl,
              fun k hk => List.mem_cons_of_mem _ hk, ?_, List.pairwise_singleton _ _⟩
            intro fw hfw
            rw [List.mem_singleton] at hfw
            subst hfw
            refine ⟨⟨⟨c, hx, hext, by simpa using hd, rfl, rfl⟩, rfl⟩,
              List.mem_cons_self _ _, hm⟩
          · rw [item1_eq_newfail env dd c s a w ht hext hd hm (by simpa using hcr)]
            exact ⟨[], by simp, fun k hk => List.mem_cons_of_mem _ hk, by simp,
              List.Pairwise.nil⟩
    · rw [item1_eq_skip env dd c s a hext]
      exact ⟨[], by simp, fun k hk => hk, by simp, List.Pairwise.nil⟩

theorem stepIcns_ok (env : IconEnv) (dd : String) (ic : IcnsIcon) (s : List IconKey)
    (a : List FileWrite) : StepOK (FromFallbackPass env dd) s a (stepIcns env dd ic s a) := by
  by_cases hm : (ic.width, ic.height, decide (1 < ic.density)) ∈ s
  · rw [stepIcns_eq_old env dd ic s a hm]
    exact ⟨[], by simp, fun k hk => hk, by simp, List.Pairwise.nil⟩
  · cases hb : ic.pngBytes with
    | error e =>
      rw [stepIcns_eq_geterr env dd ic s a e hm hb]
      exact ⟨[], by simp, fun k hk => List.mem_cons_of_mem _ hk, by simp, List.Pairwise.nil⟩
    | ok b =>
      by_cases hcr : env.createOk (destPath dd env.binaryName ic.width ic.height
          (decide (1 < ic.density))) = true
      · rw [stepIcns_eq_new env dd ic s a b hm hb hcr]
        refine ⟨[⟨destPath dd env.binaryName ic.width ic.height (decide (1 < ic.density)),
          (ic.width, ic.height, decide (1 < ic.density)), WriteKind.encodedIcns b⟩], rfl,
          fun k hk => List.mem_cons_of_mem _ hk, ?_, List.pairwise_singleton _ _⟩
        intro fw hfw
        rw [List.mem_singleton] at hfw
        subst hfw
        exact ⟨⟨fun p bb => by simp, rfl⟩, List.mem_cons_self _ _, hm⟩
      · rw [stepIcns_eq_newfail env dd ic s a b hm hb (by simpa using hcr)]
        exact ⟨[], by simp, fun k hk => List.mem_cons_of_mem _ hk, by simp, List.Pairwise.nil⟩

theorem item2_ok (env : IconEnv) (dd : String) (x : Except String Candidate)
    (s : List IconKey) (a : List FileWrite) :
    StepOK (FromFallbackPass env dd) s a (item2 env dd x s a) := by
  cases x with
  | error e =>
    rw [item2_eq_err]
    exact ⟨[], by simp, fun k hk => hk, by simp, List.Pairwise.nil⟩
  | ok c =>
    by_cases hext : c.ext = some "png"
    · rw [item2_eq_skip env dd c s a hext]
      exact ⟨[], by simp, fun k hk => hk, by simp, List.Pairwise.nil⟩
    · by_cases hicns : c.ext = some "icns"
      · cases he : c.icns with
        | error e =>
          rw [item2_eq_icnserr env dd c s a e hext hicns he]
          exact ⟨[], by simp, fun k hk => hk, by simp, List.Pairwise.nil⟩
        | ok icons =>
          rw [item2_eq_icns env dd c s a icons hext hicns he]
          exact runSteps_ok (FromFallbackPass env dd) (stepIcns env dd) icons s a
            (fun ic _ s' a' => stepIcns_ok env dd ic s' a')
      · cases he : c.raster with
        | error e =>
          rw [item2_eq_rastererr env dd c s a e hext hicns he]
          exact ⟨[], by simp, fun k hk => hk, by simp, List.Pairwise.nil⟩
        | ok r =>
          by_cases hm : (r.width, r.height, env.isRetina c.path) ∈ s
          · rw [item2_eq_rasterold env dd c s a r hext hicns he hm]
            exact ⟨[], by simp, fun k hk => hk, by simp, List.Pairwise.nil⟩
          · by_cases hcr : env.createOk (destPath dd env.binaryName r.width r.height
                (env.isRetina c.path)) = true
            · rw [item2_eq_rasternew env dd c s a r hext hicns he hm hcr]
              refine ⟨[⟨destPath dd env.binaryName r.width r.height (env.isRetina c.path),
                (r.width, r.height, env.isRetina c.path),
                WriteKind.encodedRaster r.pixels r.width r.height r.color⟩], rfl,
                fun k hk => List.mem_cons_of_mem _ hk, ?_, List.pairwise_singleton _ _⟩
              intro fw hfw
              rw [List.mem_singleton] at hfw
              subst hfw
              exact ⟨⟨fun p bb => by simp, rfl⟩, List.mem_cons_self _ _, hm⟩
            · rw [item2_eq_rasternewfail env dd c s a r hext hicns he hm (by simpa using hcr)]
              exact ⟨[], by simp, fun k hk => List.mem_cons_of_mem _ hk, by simp,
                List.Pairwise.nil⟩

/-! ## Pass-level lemmas -/

theorem pass1_ok (env : IconEnv) (dd : String) (cands : List (Except String Candidate))
    (sizes : List IconKey) (acc : List FileWrite) :
    StepOK (FromPngPass env dd cands) sizes acc (pass1 env dd cands sizes acc) :=
  runSteps_ok (FromPngPass env dd cands) (item1 env dd) cands sizes acc (item1_ok env dd cands)

theorem pass2_ok (env : IconEnv) (dd : String) (cands : List (Except String Candidate))
    (sizes : List IconKey) (acc : List FileWrite) :
    StepOK (FromFallbackPass env dd) sizes acc (pass2 env dd cands sizes acc) :=
  runSteps_ok (FromFallbackPass env dd) (item2 env dd) cands sizes acc
    (fun x _ s a => item2_ok env dd x s a)

theorem pass1_mono (env : IconEnv) (dd : String) (cands : List (Except String Candidate))
    (sizes : List IconKey) (acc : List FileWrite) :
    ∀ k ∈ sizes, k ∈ (pass1 env dd cands sizes acc).1 := by
  obtain ⟨_, _, hmono, _, _⟩ := pass1_ok env dd cands sizes acc
  exact hmono

theorem pass1_registers (env : IconEnv) (dd : String) :
    ∀ (cands : List (Except String Candidate)) (sizes : List IconKey) (acc : List FileWrite)
      (c : Candidate) (w ht : Nat),
      Except.ok c ∈ cands → c.ext = some "png" → c.pngDims = Except.ok (w, ht) →
      ((pass1 env dd cands sizes acc).2.2) = none →
      (w, ht, env.isRetina c.path) ∈ (pass1 env dd cands sizes acc).1 := by
  intro cands
  induction cands with
  | nil => intro sizes acc c w ht hmem; cases hmem
  | cons x rest ih =>
    intro sizes acc c w ht hmem hext hd hnone
    rcases hout : item1 env dd x sizes acc with ⟨s1, a1, r1⟩
    cases r1 with
    | some e =>
      rw [show pass1 env dd (x :: rest) sizes acc = (s1, a1, some e) by
        simp [pass1, runSteps, hout]] at hnone
      cases hnone
    | none =>
      have hrw : pass1 env dd (x :: rest) sizes acc = pass1 env dd rest s1 a1 := by
        simp [pass1, runSteps, hout]
      rw [hrw] at hnone ⊢
      rcases List.mem_cons.1 hmem with heq | hrest
      · -- the interesting candidate is processed right now: its key is in s1
        have hkey : (w, ht, env.isRetina c.path) ∈ s1 := by
          by_cases hm : (w, ht, env.isRetina c.path) ∈ sizes
          · rw [← heq, item1_eq_old env dd c sizes acc w ht hext hd hm] at hout
            cases hout
            exact hm
          · by_cases hcr : env.createOk (destPath dd env.binaryName w ht
                (env.isRetina c.path)) = true
            · rw [← heq, item1_eq_new env dd c sizes acc w ht hext hd hm hcr] at hout
              cases hout
              exact List.mem_cons_self _ _
            · rw [← heq, item1_eq_newfail env dd c sizes acc w ht hext hd hm
                (by simpa using hcr)] at hout
              cases hout
        exact pass1_mono env dd rest s1 a1 _ hkey
      · exact ih s1 a1 c w ht hrest hext hd hnone

theorem item1_covered (env : IconEnv) (dd : String) (x : Except String Candidate)
    (s : List IconKey) (a : List FileWrite) :
    ((item1 env dd x s a).2.2) = none → KeysCovered s a →
    KeysCovered (item1 env dd x s a).1 (item1 env dd x s a).2.1 := by
  intro hnone hcov
  cases x with
  | error e => rw [item1_eq_err] at hnone; cases hnone
  | ok c =>
    by_cases hext : c.ext = some "png"
    · cases hd : c.pngDims with
      | error e =>
        rw [item1_eq_dimserr env dd c s a e hext hd] at hnone
        cases hnone
      | ok wh =>
        rcases wh with ⟨w, ht⟩
        by_cases hm : (w, ht, env.isRetina c.path) ∈ s
        · rw [item1_eq_old env dd c s a w ht hext hd hm]
          exact hcov
        · by_cases hcr : env.createOk (destPath dd env.binaryName w ht
              (env.isRetina c.path)) = true
          · rw [item1_eq_new env dd c s a w ht hext hd hm hcr]
            intro k hk
            rcases List.mem_cons.1 hk with rfl | hks
            · exact ⟨⟨destPath dd env.binaryName w ht (env.isRetina c.path),
                (w, ht, env.isRetina c.path), WriteKind.copied c.path c.bytes⟩,
                by simp, rfl⟩
            · obtain ⟨fw, hfw, hfk⟩ := hcov k hks
              exact ⟨fw, List.mem_append_left _ hfw, hfk⟩
          · rw [item1_eq_newfail env dd c s a w ht hext hd hm (by simpa using hcr)] at hnone
            cases hnone
    · rw [item1_eq_skip env dd c s a hext]
      exact hcov

theorem pass1_covered (env : IconEnv) (dd : String) (cands : List (Except String Candidate))
    (sizes : List IconKey) (acc : List FileWrite) :
    ((pass1 env dd cands sizes acc).2.2) = none → KeysCovered sizes acc →
    KeysCovered (pass1 env dd cands sizes acc).1 (pass1 env dd cands sizes acc).2.1 :=
  runSteps_covered (item1 env dd) (fun x s a => item1_covered env dd x s a) cands sizes acc

/-- The destination path template written out flat. -/
theorem destPath_template (dd bn : String) (w ht : Nat) (d : Bool) :
    destPath dd bn w ht d =
      dd ++ "/usr/share/icons/hicolor/" ++ toString w ++ "x" ++ toString ht ++
        (if d then "@2x" else "") ++ "/apps/" ++ bn ++ ".png" := by
  unfold destPath
  simp only [← String.append_assoc]
  congr 1
  congr 1
  congr 1
  congr 1
  congr 1
  congr 1
  congr 1
  rw [String.append_assoc, String.append_assoc]
  congr 1


/-! ## Claim theorems: icon resolver -/

/-- C1: for every input candidate sequence, `generate_icon_files` emits at
most one destination file per `(width, height, is_high_density)` key: the
list of emitted writes has pairwise distinct keys, because a key is
inserted into the seen-set before its file is written and every write is
guarded by a membership test in all three branches. -/
theorem generateIconFiles_dedup (env : IconEnv) (dd : String)
    (cands : List (Except String Candidate)) :
    ((generateIconFiles env dd cands).1).Pairwise (fun a b => a.key ≠ b.key) := by
  unfold generateIconFiles
  rcases h1 : pass1 env dd cands [] [] with ⟨s1, a1, r1⟩
  obtain ⟨new1, hacc1, _, hprops1, hpw1⟩ := pass1_ok env dd cands [] []
  rw [h1] at hacc1 hprops1
  dsimp only at hacc1 hprops1
  rw [List.nil_append] at hacc1
  rw [← hacc1] at hprops1 hpw1
  cases r1 with
  | some e => dsimp only; exact hpw1
  | none =>
    dsimp only
    rcases h2 : pass2 env dd cands s1 a1 with ⟨s2, a2, r2⟩
    obtain ⟨new2, hacc2, _, hprops2, hpw2⟩ := pass2_ok env dd cands s1 a1
    rw [h2] at hacc2 hprops2
    dsimp only at hacc2 hprops2 ⊢
    rw [hacc2, List.pairwise_append]
    refine ⟨hpw1, hpw2, ?_⟩
    intro a ha b hb hab
    obtain ⟨_, hain, _⟩ := hprops1 a ha
    obtain ⟨_, _, hbnot⟩ := hprops2 b hb
    exact hbnot (hab ▸ hain)

/-- C2: if a PNG-extension candidate decodes to `(w, h)` (so a PNG source
maps to the key `(w, h, is_retina)`) and the whole run succeeds, then a
destination file for that key exists, and every destination file with that
key is a verbatim byte-for-byte copy of some PNG-extension candidate of the
input whose decoded dimensions and density class equal that key — never a
re-encoding of a non-PNG candidate, regardless of where non-PNG candidates
appear in the candidate list. -/
theorem generateIconFiles_png_precedence (env : IconEnv) (dd : String)
    (cands : List (Except String Candidate)) (c : Candidate) (w ht : Nat)
    (hmem : Except.ok c ∈ cands) (hext : c.ext = some "png")
    (hd : c.pngDims = Except.ok (w, ht))
    (hok : (generateIconFiles env dd cands).2 = none) :
    (∃ fw ∈ (generateIconFiles env dd cands).1,
        fw.key = (w, ht, env.isRetina c.path)) ∧
    (∀ fw ∈ (generateIconFiles env dd cands).1,
        fw.key = (w, ht, env.isRetina c.path) →
        ∃ c2, Except.ok c2 ∈ cands ∧ c2.ext = some "png" ∧
          c2.pngDims = Except.ok (w, ht) ∧
          env.isRetina c2.path = env.isRetina c.path ∧
          fw.kind = WriteKind.copied c2.path c2.bytes) := by
  unfold generateIconFiles at hok ⊢
  rcases h1 : pass1 env dd cands [] [] with ⟨s1, a1, r1⟩
  rw [h1] at hok
  cases r1 with
  | some e => dsimp only at hok; cases hok
  | none =>
    dsimp only at hok ⊢
    obtain ⟨new1, hacc1, _, hprops1, _⟩ := pass1_ok env dd cands [] []
    rw [h1] at hacc1 hprops1
    dsimp only at hacc1 hprops1
    rw [List.nil_append] at hacc1
    rw [← hacc1] at hprops1
    have hkey : (w, ht, env.isRetina c.path) ∈ s1 := by
      have hreg := pass1_registers env dd cands [] [] c w ht hmem hext hd (by rw [h1])
      rw [h1] at hreg
      exact hreg
    have hcov : KeysCovered s1 a1 := by
      have hc := pass1_covered env dd cands [] [] (by rw [h1]) (fun k hk => absurd hk (by simp))
      rw [h1] at hc
      exact hc
    rcases h2 : pass2 env dd cands s1 a1 with ⟨s2, a2, r2⟩
    obtain ⟨new2, hacc2, _, hprops2, _⟩ := pass2_ok env dd cands s1 a1
    rw [h2] at hacc2 hprops2
    dsimp only at hacc2 hprops2 ⊢
    rw [hacc2]
    constructor
    · obtain ⟨fw, hfw, hfk⟩ := hcov _ hkey
      exact ⟨fw, List.mem_append_left _ hfw, hfk⟩
    · intro fw hfw hfk
      rcases List.mem_append.1 hfw with hfw1 | hfw2
      · obtain ⟨⟨⟨c2, hc2mem, hc2ext, hc2d, hc2r, hc2k⟩, _⟩, _, _⟩ := hprops1 fw hfw1
        rw [hfk] at hc2d hc2r
        exact ⟨c2, hc2mem, hc2ext, by simpa using hc2d, by simpa using hc2r.symm, hc2k⟩
      · obtain ⟨_, _, hbnot⟩ := hprops2 fw hfw2
        exact absurd (hfk ▸ hkey) hbnot

/-- C2 witness: a 32x32 PNG and an icns container offering the same size;
the single emitted file for the shared key is the PNG's bytes verbatim. -/
theorem generateIconFiles_png_precedence_witness :
    Except.ok wPng ∈ wList ∧
    wPng.ext = some "png" ∧ wPng.pngDims = Except.ok (32, 32) ∧
    (generateIconFiles wEnv "data" wList).2 = none ∧
    ((∃ fw ∈ (generateIconFiles wEnv "data" wList).1,
        fw.key = (32, 32, wEnv.isRetina wPng.path)) ∧
     (∀ fw ∈ (generateIconFiles wEnv "data" wList).1,
        fw.key = (32, 32, wEnv.isRetina wPng.path) →
        ∃ c2, Except.ok c2 ∈ wList ∧ c2.ext = some "png" ∧
          c2.pngDims = Except.ok (32, 32) ∧
          wEnv.isRetina c2.path = wEnv.isRetina wPng.path ∧
          fw.kind = WriteKind.copied c2.path c2.bytes)) :=
  ⟨by decide, by decide, by decide, by decide,
    generateIconFiles_png_precedence wEnv "data" wList wPng 32 32
      (by decide) (by decide) (by decide) (by decide)⟩

/-- C3: every destination path produced by `generate_icon_files` for key
`(W, H, d)` and binary name `B` equals
`{data_dir}/usr/share/icons/hicolor/{W}x{H}{S}/apps/{B}.png`, where the
suffix `S` is `@2x` exactly when the key was classified high-density. -/
theorem generateIconFiles_path_layout (env : IconEnv) (dd : String)
    (cands : List (Except String Candidate)) :
    ∀ fw ∈ (generateIconFiles env dd cands).1,
      fw.path = dd ++ "/usr/share/icons/hicolor/" ++ toString fw.key.1 ++ "x" ++
        toString fw.key.2.1 ++ (if fw.key.2.2 then "@2x" else "") ++ "/apps/" ++
        env.binaryName ++ ".png" := by
  have hgen : ∀ fw ∈ (generateIconFiles env dd cands).1,
      fw.path = destPath dd env.binaryName fw.key.1 fw.key.2.1 fw.key.2.2 := by
    unfold generateIconFiles
    rcases h1 : pass1 env dd cands [] [] with ⟨s1, a1, r1⟩
    obtain ⟨new1, hacc1, _, hprops1, _⟩ := pass1_ok env dd cands [] []
    rw [h1] at hacc1 hprops1
    dsimp only at hacc1 hprops1
    rw [List.nil_append] at hacc1
    rw [← hacc1] at hprops1
    cases r1 with
    | some e =>
      dsimp only
      intro fw hfw
      obtain ⟨⟨_, hpath⟩, _, _⟩ := hprops1 fw hfw
      exact hpath
    | none =>
      dsimp only
      rcases h2 : pass2 env dd cands s1 a1 with ⟨s2, a2, r2⟩
      obtain ⟨new2, hacc2, _, hprops2, _⟩ := pass2_ok env dd cands s1 a1
      rw [h2] at hacc2 hprops2
      dsimp only at hacc2 hprops2 ⊢
      rw [hacc2]
      intro fw hfw
      rcases List.mem_append.1 hfw with hfw1 | hfw2
      · obtain ⟨⟨_, hpath⟩, _, _⟩ := hprops1 fw hfw1
        exact hpath
      · obtain ⟨⟨_, hpath⟩, _, _⟩ := hprops2 fw hfw2
        exact hpath
  intro fw hfw
  rw [hgen fw hfw, destPath_template]

/-- C3 witness: the single write of the witness run sits at
`data/usr/share/icons/hicolor/32x32/apps/app.png`. -/
theorem generateIconFiles_path_layout_witness :
    (⟨"data/usr/share/icons/hicolor/32x32/apps/app.png", (32, 32, false),
        WriteKind.copied "icon.png" [1, 2, 3]⟩ : FileWrite) ∈
      (generateIconFiles wEnv "data" wList).1 ∧
    (⟨"data/usr/share/icons/hicolor/32x32/apps/app.png", (32, 32, false),
        WriteKind.copied "icon.png" [1, 2, 3]⟩ : FileWrite).path =
      "data" ++ "/usr/share/icons/hicolor/" ++ toString (32 : Nat) ++ "x" ++
        toString (32 : Nat) ++ (if false then "@2x" else "") ++ "/apps/" ++
        wEnv.binaryName ++ ".png" :=
  ⟨by decide,
    generateIconFiles_path_layout wEnv "data" wList _ (by decide)⟩

/-- C8: pass 1 processes exactly the candidates whose extension is the
literal lowercase `png` (`OsStr` comparison is case-sensitive): any other
candidate, including one with extension `PNG`, is skipped by pass 1; no
write ever copies bytes verbatim from a non-`png`-extension candidate; and
a lone `PNG`-extension candidate is handled by the generic-raster fallback
branch, producing a re-encoded PNG rather than a verbatim copy. -/
theorem pass1_png_extension_only :
    (∀ (env : IconEnv) (dd : String) (c : Candidate)
        (rest : List (Except String Candidate)) (sizes : List IconKey)
        (acc : List FileWrite), ¬ c.ext = some "png" →
        pass1 env dd (Except.ok c :: rest) sizes acc = pass1 env dd rest sizes acc) ∧
    (∀ (env : IconEnv) (dd : String) (cands : List (Except String Candidate))
        (fw : FileWrite) (p : String) (b : List Nat),
        fw ∈ (generateIconFiles env dd cands).1 → fw.kind = WriteKind.copied p b →
        ∃ c, Except.ok c ∈ cands ∧ c.ext = some "png" ∧ c.path = p ∧ c.bytes = b) ∧
    (∀ (env : IconEnv) (dd : String) (c : Candidate) (r : Raster),
        c.ext = some "PNG" → c.raster = Except.ok r →
        env.createOk (destPath dd env.binaryName r.width r.height
          (env.isRetina c.path)) = true →
        generateIconFiles env dd [Except.ok c] =
          ([⟨destPath dd env.binaryName r.width r.height (env.isRetina c.path),
            (r.width, r.height, env.isRetina c.path),
            WriteKind.encodedRaster r.pixels r.width r.height r.color⟩], none)) := by
  refine ⟨?_, ?_, ?_⟩
  · intro env dd c rest sizes acc hext
    show runSteps (item1 env dd) (Except.ok c :: rest) sizes acc = _
    rw [show runSteps (item1 env dd) (Except.ok c :: rest) sizes acc =
      (match item1 env dd (Except.ok c) sizes acc with
        | (s, a, none) => runSteps (item1 env dd) rest s a
        | (s, a, some e) => (s, a, some e)) from rfl]
    rw [item1_eq_skip env dd c sizes acc hext]
    rfl
  · intro env dd cands fw p b hfw hk
    revert hfw
    unfold generateIconFiles
    rcases h1 : pass1 env dd cands [] [] with ⟨s1, a1, r1⟩
    obtain ⟨new1, hacc1, _, hprops1, _⟩ := pass1_ok env dd cands [] []
    rw [h1] at hacc1 hprops1
    dsimp only at hacc1 hprops1
    rw [List.nil_append] at hacc1
    rw [← hacc1] at hprops1
    have hfrom1 : ∀ fw1, fw1 ∈ a1 → fw1.kind = WriteKind.copied p b →
        ∃ c, Except.ok c ∈ cands ∧ c.ext = some "png" ∧ c.path = p ∧ c.bytes = b := by
      intro fw1 hfw1 hk1
      obtain ⟨⟨⟨c2, hc2mem, hc2ext, _, _, hc2k⟩, _⟩, _, _⟩ := hprops1 fw1 hfw1
      rw [hk1] at hc2k
      injection hc2k with hp hb
      exact ⟨c2, hc2mem, hc2ext, hp.symm, hb.symm⟩
    cases r1 with
    | some e =>
      dsimp only
      intro hfw
      exact hfrom1 fw hfw hk
    | none =>
      dsimp only
      rcases h2 : pass2 env dd cands s1 a1 with ⟨s2, a2, r2⟩
      obtain ⟨new2, hacc2, _, hprops2, _⟩ := pass2_ok env dd cands s1 a1
      rw [h2] at hacc2 hprops2
      dsimp only at hacc2 hprops2 ⊢
      rw [hacc2]
      intro hfw
      rcases List.mem_append.1 hfw with hfw1 | hfw2
      · exact hfrom1 fw hfw1 hk
      · obtain ⟨⟨hnc, _⟩, _, _⟩ := hprops2 fw hfw2
        exact absurd hk (hnc p b)
  · intro env dd c r hext hraster hcr
    have hx : ¬ c.ext = some "png" := by rw [hext]; decide
    have hi : ¬ c.ext = some "icns" := by rw [hext]; decide
    have h1 : pass1 env dd [Except.ok c] [] [] = ([], [], none) := by
      show runSteps (item1 env dd) [Except.ok c] [] [] = _
      rw [show runSteps (item1 env dd) [Except.ok c] [] [] =
        (match item1 env dd (Except.ok c) [] [] with
          | (s, a, none) => runSteps (item1 env dd) [] s a
          | (s, a, some e) => (s, a, some e)) from rfl]
      rw [item1_eq_skip env dd c [] [] hx]
      rfl
    have h2 : pass2 env dd [Except.ok c] [] [] =
        ((r.width, r.height, env.isRetina c.path) :: [],
          [⟨destPath dd env.binaryName r.width r.height (env.isRetina c.path),
            (r.width, r.height, env.isRetina c.path),
            WriteKind.encodedRaster r.pixels r.width r.height r.color⟩], none) := by
      show runSteps (item2 env dd) [Except.ok c] [] [] = _
      rw [show runSteps (item2 env dd) [Except.ok c] [] [] =
        (match item2 env dd (Except.ok c) [] [] with
          | (s, a, none) => runSteps (item2 env dd) [] s a
          | (s, a, some e) => (s, a, some e)) from rfl]
      rw [item2_eq_rasternew env dd c [] [] r hx hi hraster (by simp) hcr]
      simp [runSteps]
    unfold generateIconFiles
    rw [h1]
    dsimp only
    rw [h2]

/-- C8 witness: an `.icns` candidate is skipped by pass 1; the verbatim
copies of the witness run come only from the `png` candidate; and the
uppercase `.PNG` candidate alone yields a re-encoded raster write. -/
theorem pass1_png_extension_only_witness :
    (¬ wIcns.ext = some "png") ∧
    (pass1 wEnv "data" [Except.ok wIcns] [] [] = pass1 wEnv "data" [] [] []) ∧
    ((⟨"data/usr/share/icons/hicolor/32x32/apps/app.png", (32, 32, false),
        WriteKind.copied "icon.png" [1, 2, 3]⟩ : FileWrite) ∈
      (generateIconFiles wEnv "data" wList).1 ∧
     (∃ c, Except.ok c ∈ wList ∧ c.ext = some "png" ∧ c.path = "icon.png" ∧
        c.bytes = [1, 2, 3])) ∧
    (wPngUpper.ext = some "PNG" ∧
     generateIconFiles wEnv "data" [Except.ok wPngUpper] =
      ([⟨destPath "data" wEnv.binaryName 16 16 (wEnv.isRetina wPngUpper.path),
        (16, 16, wEnv.isRetina wPngUpper.path),
        WriteKind.encodedRaster [5, 5, 5] 16 16 2⟩], none)) :=
  ⟨by decide,
   pass1_png_extension_only.1 wEnv "data" wIcns [] [] [] (by decide),
   ⟨by decide,
    pass1_png_extension_only.2.1 wEnv "data" wList
      ⟨"data/usr/share/icons/hicolor/32x32/apps/app.png", (32, 32, false),
        WriteKind.copied "icon.png" [1, 2, 3]⟩ "icon.png" [1, 2, 3]
      (by decide) (by decide)⟩,
   ⟨by decide,
    pass1_png_extension_only.2.2 wEnv "data" wPngUpper ⟨16, 16, [5, 5, 5], 2⟩
      (by decide) (by decide) (by decide)⟩⟩

/-- If the PNG pass fails, the whole function fails. -/
theorem generateIconFiles_isSome_of_pass1 (env : IconEnv) (dd : String)
    (cands : List (Except String Candidate))
    (h : ((pass1 env dd cands [] []).2.2).isSome) :
    ((generateIconFiles env dd cands).2).isSome := by
  unfold generateIconFiles
  rcases h1 : pass1 env dd cands [] [] with ⟨s1, a1, r1⟩
  rw [h1] at h
  cases r1 with
  | some e => simp
  | none => simp at h

/-- C5: `generate_icon_files` aborts with an error whenever (1) any item of
the candidate sequence is itself an error, (2) a `png` candidate's header
fails to decode, (3) a non-`png`, non-`icns` candidate fails to decode as a
raster, (4) an error item reached after a cleanly processed prefix is
returned unchanged (not wrapped) while the files written for that prefix
are kept (no rollback), (5) a failure to create a destination file aborts
the PNG pass immediately, keeping earlier writes, (6) an `icns` candidate
whose container fails to open or decode aborts the run, (7) a failed
extraction of an embedded `icns` image aborts pass 2 at that icon, keeping
earlier writes, and a failure to create a destination file in pass 2 —
whether in the `icns` branch (8) or in the generic-raster branch (9) —
aborts pass 2 immediately, keeping earlier writes. -/
theorem generateIconFiles_error_propagation :
    (∀ (env : IconEnv) (dd : String) (cands : List (Except String Candidate)) (e : String),
        Except.error e ∈ cands → ((generateIconFiles env dd cands).2).isSome) ∧
    (∀ (env : IconEnv) (dd : String) (cands : List (Except String Candidate))
        (c : Candidate) (e : String), Except.ok c ∈ cands → c.ext = some "png" →
        c.pngDims = Except.error e → ((generateIconFiles env dd cands).2).isSome) ∧
    (∀ (env : IconEnv) (dd : String) (cands : List (Except String Candidate))
        (c : Candidate) (e : String), Except.ok c ∈ cands → ¬ c.ext = some "png" →
        ¬ c.ext = some "icns" → c.raster = Except.error e →
        ((generateIconFiles env dd cands).2).isSome) ∧
    (∀ (env : IconEnv) (dd : String) (l1 l2 : List (Except String Candidate)) (e : String),
        ((pass1 env dd l1 [] []).2.2) = none →
        generateIconFiles env dd (l1 ++ Except.error e :: l2) =
          ((pass1 env dd l1 [] []).2.1, some e)) ∧
    (∀ (env : IconEnv) (dd : String) (c : Candidate)
        (rest : List (Except String Candidate)) (sizes : List IconKey)
        (acc : List FileWrite) (w ht : Nat), c.ext = some "png" →
        c.pngDims = Except.ok (w, ht) → (w, ht, env.isRetina c.path) ∉ sizes →
        env.createOk (destPath dd env.binaryName w ht (env.isRetina c.path)) = false →
        pass1 env dd (Except.ok c :: rest) sizes acc =
          ((w, ht, env.isRetina c.path) :: sizes, acc,
            some (createFailMsg (destPath dd env.binaryName w ht
              (env.isRetina c.path))))) ∧
    (∀ (env : IconEnv) (dd : String) (cands : List (Except String Candidate))
        (c : Candidate) (e : String), Except.ok c ∈ cands → ¬ c.ext = some "png" →
        c.ext = some "icns" → c.icns = Except.error e →
        ((generateIconFiles env dd cands).2).isSome) ∧
    (∀ (env : IconEnv) (dd : String) (c : Candidate)
        (rest : List (Except String Candidate)) (ic : IcnsIcon) (irest : List IcnsIcon)
        (sizes : List IconKey) (acc : List FileWrite) (e : String),
        ¬ c.ext = some "png" → c.ext = some "icns" →
        c.icns = Except.ok (ic :: irest) →
        (ic.width, ic.height, decide (1 < ic.density)) ∉ sizes →
        ic.pngBytes = Except.error e →
        pass2 env dd (Except.ok c :: rest) sizes acc =
          ((ic.width, ic.height, decide (1 < ic.density)) :: sizes, acc, some e)) ∧
    (∀ (env : IconEnv) (dd : String) (c : Candidate)
        (rest : List (Except String Candidate)) (ic : IcnsIcon) (irest : List IcnsIcon)
        (sizes : List IconKey) (acc : List FileWrite) (b : List Nat),
        ¬ c.ext = some "png" → c.ext = some "icns" →
        c.icns = Except.ok (ic :: irest) →
        (ic.width, ic.height, decide (1 < ic.density)) ∉ sizes →
        ic.pngBytes = Except.ok b →
        env.createOk (destPath dd env.binaryName ic.width ic.height
          (decide (1 < ic.density))) = false →
        pass2 env dd (Except.ok c :: rest) sizes acc =
          ((ic.width, ic.height, decide (1 < ic.density)) :: sizes, acc,
            some (createFailMsg (destPath dd env.binaryName ic.width ic.height
              (decide (1 < ic.density)))))) ∧
    (∀ (env : IconEnv) (dd : String) (c : Candidate)
        (rest : List (Except String Candidate)) (sizes : List IconKey)
        (acc : List FileWrite) (r : Raster), ¬ c.ext = some "png" →
        ¬ c.ext = some "icns" → c.raster = Except.ok r →
        (r.width, r.height, env.isRetina c.path) ∉ sizes →
        env.createOk (destPath dd env.binaryName r.width r.height
          (env.isRetina c.path)) = false →
        pass2 env dd (Except.ok c :: rest) sizes acc =
          ((r.width, r.height, env.isRetina c.path) :: sizes, acc,
            some (createFailMsg (destPath dd env.binaryName r.width r.height
              (env.isRetina c.path))))) := by
  refine ⟨?_, ?_, ?_, ?_, ?_, ?_, ?_, ?_, ?_⟩
  · intro env dd cands e hmem
    exact generateIconFiles_isSome_of_pass1 env dd cands
      (runSteps_err_isSome (item1 env dd) (Except.error e)
        (fun s a => by rw [item1_eq_err]; rfl) cands [] [] hmem)
  · intro env dd cands c e hmem hext hd
    exact generateIconFiles_isSome_of_pass1 env dd cands
      (runSteps_err_isSome (item1 env dd) (Except.ok c)
        (fun s a => by rw [item1_eq_dimserr env dd c s a e hext hd]; rfl) cands [] [] hmem)
  · intro env dd cands c e hmem hx hi hr
    unfold generateIconFiles
    rcases h1 : pass1 env dd cands [] [] with ⟨s1, a1, r1⟩
    cases r1 with
    | some e2 => simp
    | none =>
      dsimp only
      have hp2 := runSteps_err_isSome (item2 env dd) (Except.ok c)
        (fun s a => by rw [item2_eq_rastererr env dd c s a e hx hi hr]; rfl)
        cands s1 a1 hmem
      rcases h2 : pass2 env dd cands s1 a1 with ⟨s2, a2, r2⟩
      have hpp : pass2 env dd cands s1 a1 =
          runSteps (item2 env dd) cands s1 a1 := rfl
      rw [← hpp, h2] at hp2
      cases r2 with
      | some e2 => simp
      | none => simp at hp2
  · intro env dd l1 l2 e hnone
    have happ := runSteps_append (item1 env dd) l1 (Except.error e :: l2) [] []
    rcases h1 : pass1 env dd l1 [] [] with ⟨s1, a1, r1⟩
    have hpp : pass1 env dd l1 [] [] = runSteps (item1 env dd) l1 [] [] := rfl
    rw [← hpp, h1] at happ
    rw [h1] at hnone
    dsimp only at hnone
    subst hnone
    dsimp only at happ
    have hfull : pass1 env dd (l1 ++ Except.error e :: l2) [] [] = (s1, a1, some e) := by
      show runSteps (item1 env dd) (l1 ++ Except.error e :: l2) [] [] = _
      rw [happ]
      rw [show runSteps (item1 env dd) (Except.error e :: l2) s1 a1 =
        (match item1 env dd (Except.error e) s1 a1 with
          | (s, a, none) => runSteps (item1 env dd) l2 s a
          | (s, a, some e2) => (s, a, some e2)) from rfl]
      rw [item1_eq_err]
    unfold generateIconFiles
    rw [hfull]
  · intro env dd c rest sizes acc w ht hext hd hm hcr
    show runSteps (item1 env dd) (Except.ok c :: rest) sizes acc = _
    rw [show runSteps (item1 env dd) (Except.ok c :: rest) sizes acc =
      (match item1 env dd (Except.ok c) sizes acc with
        | (s, a, none) => runSteps (item1 env dd) rest s a
        | (s, a, some e) => (s, a, some e)) from rfl]
    rw [item1_eq_newfail env dd c sizes acc w ht hext hd hm hcr]
  · intro env dd cands c e hmem hx hi he
    unfold generateIconFiles
    rcases h1 : pass1 env dd cands [] [] with ⟨s1, a1, r1⟩
    cases r1 with
    | some e2 => simp
    | none =>
      dsimp only
      have hp2 := runSteps_err_isSome (item2 env dd) (Except.ok c)
        (fun s a => by rw [item2_eq_icnserr env dd c s a e hx hi he]; rfl)
        cands s1 a1 hmem
      rcases h2 : pass2 env dd cands s1 a1 with ⟨s2, a2, r2⟩
      have hpp : pass2 env dd cands s1 a1 =
          runSteps (item2 env dd) cands s1 a1 := rfl
      rw [← hpp, h2] at hp2
      cases r2 with
      | some e2 => simp
      | none => simp at hp2
  · intro env dd c rest ic irest sizes acc e hx hi hicns hm hb
    show runSteps (item2 env dd) (Except.ok c :: rest) sizes acc = _
    rw [show runSteps (item2 env dd) (Except.ok c :: rest) sizes acc =
      (match item2 env dd (Except.ok c) sizes acc with
        | (s, a, none) => runSteps (item2 env dd) rest s a
        | (s, a, some e2) => (s, a, some e2)) from rfl]
    rw [item2_eq_icns env dd c sizes acc (ic :: irest) hx hi hicns]
    rw [show runSteps (stepIcns env dd) (ic :: irest) sizes acc =
      (match stepIcns env dd ic sizes acc with
        | (s, a, none) => runSteps (stepIcns env dd) irest s a
        | (s, a, some e2) => (s, a, some e2)) from rfl]
    rw [stepIcns_eq_geterr env dd ic sizes acc e hm hb]
  · intro env dd c rest ic irest sizes acc b hx hi hicns hm hb hcr
    show runSteps (item2 env dd) (Except.ok c :: rest) sizes acc = _
    rw [show runSteps (item2 env dd) (Except.ok c :: rest) sizes acc =
      (match item2 env dd (Except.ok c) sizes acc with
        | (s, a, none) => runSteps (item2 env dd) rest s a
        | (s, a, some e2) => (s, a, some e2)) from rfl]
    rw [item2_eq_icns env dd c sizes acc (ic :: irest) hx hi hicns]
    rw [show runSteps (stepIcns env dd) (ic :: irest) sizes acc =
      (match stepIcns env dd ic sizes acc with
        | (s, a, none) => runSteps (stepIcns env dd) irest s a
        | (s, a, some e2) => (s, a, some e2)) from rfl]
    rw [stepIcns_eq_newfail env dd ic sizes acc b hm hb hcr]
  · intro env dd c rest sizes acc r hx hi hr hm hcr
    show runSteps (item2 env dd) (Except.ok c :: rest) sizes acc = _
    rw [show runSteps (item2 env dd) (Except.ok c :: rest) sizes acc =
      (match item2 env dd (Except.ok c) sizes acc with
        | (s, a, none) => runSteps (item2 env dd) rest s a
        | (s, a, some e2) => (s, a, some e2)) from rfl]
    rw [item2_eq_rasternewfail env dd c sizes acc r hx hi hr hm hcr]

/-- C5 witness: an error item after a clean PNG prefix is returned verbatim
with the prefix's write kept; a corrupt `png`, a corrupt `bmp`, a corrupt
`icns` container and a bare error item each make the run fail; a failed
embedded-icon extraction aborts pass 2; and destination-creation failures
abort pass 1, the icns branch of pass 2, and the raster branch of pass 2,
each keeping earlier state. -/
theorem generateIconFiles_error_propagation_witness :
    (Except.error "boom" ∈ ([Except.error "boom"] : List (Except String Candidate)) ∧
      ((generateIconFiles wEnv "data" [Except.error "boom"]).2).isSome) ∧
    (Except.ok wPngBad ∈ ([Except.ok wPngBad] : List (Except String Candidate)) ∧
      wPngBad.ext = some "png" ∧
      wPngBad.pngDims = Except.error "corrupt header" ∧
      ((generateIconFiles wEnv "data" [Except.ok wPngBad]).2).isSome) ∧
    (Except.ok wRasterBad ∈ ([Except.ok wRasterBad] : List (Except String Candidate)) ∧
      wRasterBad.raster = Except.error "unsupported color depth" ∧
      ((generateIconFiles wEnv "data" [Except.ok wRasterBad]).2).isSome) ∧
    ((pass1 wEnv "data" [Except.ok wPng] [] []).2.2 = none ∧
      generateIconFiles wEnv "data" ([Except.ok wPng] ++ Except.error "boom" :: []) =
        ((pass1 wEnv "data" [Except.ok wPng] [] []).2.1, some "boom")) ∧
    (wEnvNoCreate.createOk (destPath "data" wEnvNoCreate.binaryName 32 32
        (wEnvNoCreate.isRetina wPng.path)) = false ∧
      pass1 wEnvNoCreate "data" [Except.ok wPng] [] [] =
        ((32, 32, wEnvNoCreate.isRetina wPng.path) :: [], [],
          some (createFailMsg (destPath "data" wEnvNoCreate.binaryName 32 32
            (wEnvNoCreate.isRetina wPng.path))))) ∧
    (Except.ok wIcnsBad ∈ ([Except.ok wIcnsBad] : List (Except String Candidate)) ∧
      wIcnsBad.ext = some "icns" ∧
      wIcnsBad.icns = Except.error "corrupt icns container" ∧
      ((generateIconFiles wEnv "data" [Except.ok wIcnsBad]).2).isSome) ∧
    (wIcnsExtractBad.icns =
        Except.ok [⟨64, 64, 1, Except.error "broken embedded icon"⟩] ∧
      pass2 wEnv "data" [Except.ok wIcnsExtractBad] [] [] =
        ((64, 64, false) :: [], [], some "broken embedded icon")) ∧
    (wEnvNoCreate.createOk (destPath "data" wEnvNoCreate.binaryName 32 32 false) = false ∧
      pass2 wEnvNoCreate "data" [Except.ok wIcns] [] [] =
        ((32, 32, false) :: [], [],
          some (createFailMsg (destPath "data" wEnvNoCreate.binaryName 32 32 false)))) ∧
    (wEnvNoCreate.createOk (destPath "data" wEnvNoCreate.binaryName 16 16
        (wEnvNoCreate.isRetina wPngUpper.path)) = false ∧
      pass2 wEnvNoCreate "data" [Except.ok wPngUpper] [] [] =
        ((16, 16, wEnvNoCreate.isRetina wPngUpper.path) :: [], [],
          some (createFailMsg (destPath "data" wEnvNoCreate.binaryName 16 16
            (wEnvNoCreate.isRetina wPngUpper.path))))) :=
  ⟨⟨by decide, generateIconFiles_error_propagation.1 wEnv "data"
      [Except.error "boom"] "boom" (by decide)⟩,
   ⟨by decide, by decide, by decide,
    generateIconFiles_error_propagation.2.1 wEnv "data" [Except.ok wPngBad]
      wPngBad "corrupt header" (by decide) (by decide) (by decide)⟩,
   ⟨by decide, by decide,
    generateIconFiles_error_propagation.2.2.1 wEnv "data" [Except.ok wRasterBad]
      wRasterBad "unsupported color depth" (by decide) (by decide) (by decide) (by decide)⟩,
   ⟨by decide,
    generateIconFiles_error_propagation.2.2.2.1 wEnv "data" [Except.ok wPng] []
      "boom" (by decide)⟩,
   ⟨by decide,
    generateIconFiles_error_propagation.2.2.2.2.1 wEnvNoCreate "data" wPng [] [] []
      32 32 (by decide) (by decide) (by decide) (by decide)⟩,
   ⟨by decide, by decide, by decide,
    generateIconFiles_error_propagation.2.2.2.2.2.1 wEnv "data" [Except.ok wIcnsBad]
      wIcnsBad "corrupt icns container" (by decide) (by decide) (by decide) (by decide)⟩,
   ⟨by decide,
    generateIconFiles_error_propagation.2.2.2.2.2.2.1 wEnv "data" wIcnsExtractBad []
      ⟨64, 64, 1, Except.error "broken embedded icon"⟩ [] [] []
      "broken embedded icon" (by decide) (by decide) (by decide) (by decide) (by decide)⟩,
   ⟨by decide,
    generateIconFiles_error_propagation.2.2.2.2.2.2.2.1 wEnvNoCreate "data" wIcns []
      ⟨32, 32, 1, Except.ok [7, 7]⟩ [] [] [] [7, 7]
      (by decide) (by decide) (by decide) (by decide) (by decide) (by decide)⟩,
   ⟨by decide,
    generateIconFiles_error_propagation.2.2.2.2.2.2.2.2 wEnvNoCreate "data" wPngUpper
      [] [] [] ⟨16, 16, [5, 5, 5], 2⟩
      (by decide) (by decide) (by decide) (by decide) (by decide)⟩⟩

/-! ## Lemmas about the directory walk -/

theorem append_isPrefix_append {α : Type} (l a b : List α) :
    l ++ a <+: l ++ b ↔ a <+: b := by
  induction l with
  | nil => simp
  | cons x xs ih => simpa [List.cons_prefix_cons] using ih

/-- Every entry of a forest walk under `pfx` extends `pfx` by the name of
one of the forest's roots. -/
theorem walkForest_shape (pfx : List String) (ts : List FsTree) :
    ∀ e ∈ walkForest pfx ts,
      ∃ n rest, n ∈ List.map treeName ts ∧ e.path = pfx ++ n :: rest := by
  match ts with
  | [] => intro e he; simp [walkForest] at he
  | FsTree.file n c :: ts2 =>
    intro e he
    simp only [walkForest] at he
    rcases List.mem_cons.1 he with rfl | h2
    · exact ⟨n, [], by simp [treeName], rfl⟩
    · obtain ⟨n2, r2, hn2, hp2⟩ := walkForest_shape pfx ts2 e h2
      exact ⟨n2, r2, by simp [treeName, hn2], hp2⟩
  | FsTree.dir n m cs :: ts2 =>
    intro e he
    simp only [walkForest] at he
    rcases List.mem_cons.1 he with rfl | h2
    · exact ⟨n, [], by simp [treeName], rfl⟩
    · rcases List.mem_append.1 h2 with hbl | hbr
      · obtain ⟨n2, r2, _, hp2⟩ := walkForest_shape (pfx ++ [n]) cs e hbl
        refine ⟨n, n2 :: r2, by simp [treeName], ?_⟩
        rw [hp2, List.append_assoc]
        rfl
      · obtain ⟨n2, r2, hn2, hp2⟩ := walkForest_shape pfx ts2 e hbr
        exact ⟨n2, r2, by simp [treeName, hn2], hp2⟩

/-- In a well-formed forest walk, no later entry is a directory that is a
proper ancestor of an earlier entry: directories come before their
descendants. -/
theorem walkForest_pairwise (pfx : List String) (ts : List FsTree)
    (hwf : wfForest ts = true) :
    (walkForest pfx ts).Pairwise
      (fun a b => ¬((∃ m, b.kind = EKind.dir m) ∧ b.path <+: a.path ∧
        b.path ≠ a.path)) := by
  match ts with
  | [] => simp [walkForest]
  | FsTree.file n c :: ts2 =>
    simp only [wfForest, Bool.and_eq_true, decide_eq_true_eq] at hwf
    obtain ⟨hn, h2⟩ := hwf
    simp only [walkForest]
    rw [List.pairwise_cons]
    constructor
    · intro b hb
      obtain ⟨n2, r2, hn2, hp2⟩ := walkForest_shape pfx ts2 b hb
      rintro ⟨_, hpre, _⟩
      rw [hp2] at hpre
      have hcp := (append_isPrefix_append pfx (n2 :: r2) [n]).1 hpre
      have hn2n : n2 = n := (List.cons_prefix_cons.1 hcp).1
      exact hn (hn2n ▸ hn2)
    · exact walkForest_pairwise pfx ts2 h2
  | FsTree.dir n m cs :: ts2 =>
    simp only [wfForest, Bool.and_eq_true, decide_eq_true_eq] at hwf
    obtain ⟨⟨hn, hcs⟩, hts2⟩ := hwf
    simp only [walkForest]
    rw [List.pairwise_cons]
    constructor
    · intro b hb
      rcases List.mem_append.1 hb with hbl | hbr
      · obtain ⟨n2, r2, _, hp2⟩ := walkForest_shape (pfx ++ [n]) cs b hbl
        rintro ⟨_, hpre, _⟩
        have hlen := hpre.length_le
        rw [hp2] at hlen
        simp [List.length_append] at hlen
      · obtain ⟨n2, r2, hn2, hp2⟩ := walkForest_shape pfx ts2 b hbr
        rintro ⟨_, hpre, _⟩
        rw [hp2] at hpre
        have hcp := (append_isPrefix_append pfx (n2 :: r2) [n]).1 hpre
        have hn2n : n2 = n := (List.cons_prefix_cons.1 hcp).1
        exact hn (hn2n ▸ hn2)
    · rw [List.pairwise_append]
      refine ⟨walkForest_pairwise (pfx ++ [n]) cs hcs,
        walkForest_pairwise pfx ts2 hts2, ?_⟩
      intro a ha b hb
      obtain ⟨na, ra, _, hpa⟩ := walkForest_shape (pfx ++ [n]) cs a ha
      obtain ⟨nb, rb, hnb, hpb⟩ := walkForest_shape pfx ts2 b hb
      rintro ⟨_, hpre, _⟩
      rw [hpa, hpb, List.append_assoc] at hpre
      have hcp := (append_isPrefix_append pfx (nb :: rb) ([n] ++ na :: ra)).1 hpre
      have hnbn : nb = n := (List.cons_prefix_cons.1 hcp).1
      exact hn (hnbn ▸ hnb)

theorem filterMap_eq_map_of {α β : Type} (f : α → Option β) (g : α → β) :
    ∀ l : List α, (∀ e ∈ l, f e = some (g e)) → l.filterMap f = l.map g := by
  intro l
  induction l with
  | nil => intro _; rfl
  | cons x xs ih =>
    intro h
    rw [List.filterMap_cons, h x (by simp), List.map_cons,
      ih (fun e he => h e (by simp [he]))]

theorem walkForest_path_ne (srcDir : List String) (cs : List FsTree) :
    ∀ e ∈ walkForest srcDir cs, e.path ≠ srcDir := by
  intro e he
  obtain ⟨n, r, _, hp⟩ := walkForest_shape srcDir cs e he
  rw [hp]
  intro hcontra
  have := congrArg List.length hcontra
  simp [List.length_append] at this

theorem createTar_eq_map (srcDir : List String) (n : String) (m : Nat) (cs : List FsTree) :
    createTarFromDir srcDir (FsTree.dir n m cs) =
      (walkForest srcDir cs).map (tarOf srcDir) := by
  unfold createTarFromDir walkAt
  rw [List.filterMap_cons]
  have hroot : tarItem srcDir ⟨srcDir, EKind.dir m⟩ = none := by simp [tarItem]
  rw [hroot]
  apply filterMap_eq_map_of
  intro e he
  have hne := walkForest_path_ne srcDir cs e he
  unfold tarItem tarOf
  rw [if_neg hne]
  cases e with
  | mk p k => cases k <;> rfl

theorem tarOf_rel (srcDir : List String) (e : WalkEntry) :
    (tarOf srcDir e).rel = e.path.drop srcDir.length := by
  cases e with
  | mk p k => cases k <;> rfl

theorem tarOf_isDir (srcDir : List String) (e : WalkEntry) :
    (tarOf srcDir e).isDir = true ↔ ∃ m, e.kind = EKind.dir m := by
  cases e with
  | mk p k =>
    cases k with
    | file c => simp [tarOf, TarEntry.isDir]
    | dir m => simp [tarOf, TarEntry.isDir]

/-! ## Claim theorem: archive entry stream (create_tar_from_dir) -/

/-- C4: in the entry stream of `create_tar_from_dir` over a well-formed
source tree, the root directory itself never appears; every emitted entry's
path is the walked source path with the source-directory prefix stripped;
and no later entry is a directory that is a proper ancestor of an earlier
entry, i.e. every directory entry precedes all entries for its
descendants. -/
theorem createTarFromDir_stream (srcDir : List String) (t : FsTree)
    (hwf : wfChildren t = true) :
    (∀ te ∈ createTarFromDir srcDir t, te.rel ≠ []) ∧
    (∀ te ∈ createTarFromDir srcDir t, ∃ e ∈ walkAt srcDir t,
        e.path ≠ srcDir ∧ te.rel = e.path.drop srcDir.length) ∧
    (createTarFromDir srcDir t).Pairwise
      (fun a b => ¬(b.isDir = true ∧ b.rel <+: a.rel ∧ b.rel ≠ a.rel)) := by
  cases t with
  | file nm c =>
    have hempty : createTarFromDir srcDir (FsTree.file nm c) = [] := by
      unfold createTarFromDir walkAt
      simp [tarItem]
    rw [hempty]
    exact ⟨by simp, by simp, List.Pairwise.nil⟩
  | dir nm m cs =>
    have hwf2 : wfForest cs = true := hwf
    rw [createTar_eq_map]
    refine ⟨?_, ?_, ?_⟩
    · intro te hte
      obtain ⟨e, he, hte2⟩ := List.mem_map.1 hte
      obtain ⟨n2, r2, _, hp⟩ := walkForest_shape srcDir cs e he
      rw [← hte2, tarOf_rel, hp, List.drop_left]
      simp
    · intro te hte
      obtain ⟨e, he, hte2⟩ := List.mem_map.1 hte
      refine ⟨e, ?_, walkForest_path_ne srcDir cs e he, ?_⟩
      · simp only [walkAt]
        exact List.mem_cons_of_mem _ he
      · rw [← hte2, tarOf_rel]
    · rw [List.pairwise_map]
      have hpw := walkForest_pairwise srcDir cs hwf2
      refine List.Pairwise.imp_of_mem ?_ hpw
      intro a b ha hb hR
      rintro ⟨hdir, hpre, hne⟩
      obtain ⟨na, ra, _, hpa⟩ := walkForest_shape srcDir cs a ha
      obtain ⟨nb, rb, _, hpb⟩ := walkForest_shape srcDir cs b hb
      rw [tarOf_rel, tarOf_rel, hpa, hpb, List.drop_left, List.drop_left] at hpre hne
      apply hR
      refine ⟨(tarOf_isDir srcDir b).1 hdir, ?_, ?_⟩
      · rw [hpa, hpb]
        exact (append_isPrefix_append srcDir _ _).2 hpre
      · rw [hpa, hpb]
        intro hcontra
        have := congrArg (List.drop srcDir.length) hcontra
        rw [List.drop_left, List.drop_left] at this
        exact hne this

/-- C4 witness: the concrete two-level witness tree. -/
theorem createTarFromDir_stream_witness :
    wfChildren wTree = true ∧
    ((∀ te ∈ createTarFromDir ["tmp", "foo"] wTree, te.rel ≠ []) ∧
     (∀ te ∈ createTarFromDir ["tmp", "foo"] wTree, ∃ e ∈ walkAt ["tmp", "foo"] wTree,
        e.path ≠ ["tmp", "foo"] ∧
        te.rel = e.path.drop (["tmp", "foo"] : List String).length) ∧
     (createTarFromDir ["tmp", "foo"] wTree).Pairwise
        (fun a b => ¬(b.isDir = true ∧ b.rel <+: a.rel ∧ b.rel ≠ a.rel))) :=
  ⟨by simp [wfChildren, wfForest, treeName, wTree],
   createTarFromDir_stream ["tmp", "foo"] wTree
     (by simp [wfChildren, wfForest, treeName, wTree])⟩

/-! ## total_dir_size lemmas and claim -/

theorem foldl_add_entryLen (l : List WalkEntry) :
    ∀ a : Nat, l.foldl (fun acc e => acc + entryLen e) a = a + (l.map entryLen).sum := by
  induction l with
  | nil => intro a; simp
  | cons x xs ih =>
    intro a
    rw [List.foldl_cons, ih, List.map_cons, List.sum_cons]
    omega

theorem walkForest_sum (pfx : List String) (ts : List FsTree) :
    ((walkForest pfx ts).map entryLen).sum = sumLensForest ts := by
  match ts with
  | [] => simp [walkForest, sumLensForest]
  | FsTree.file n c :: ts2 =>
    simp only [walkForest, List.map_cons, List.sum_cons, walkForest_sum pfx ts2,
      sumLensForest, entryLen]
  | FsTree.dir n m cs :: ts2 =>
    simp only [walkForest, List.map_cons, List.sum_cons, List.map_append,
      List.sum_append, walkForest_sum (pfx ++ [n]) cs, walkForest_sum pfx ts2,
      sumLensForest, entryLen]
    omega

/-- C9: `total_dir_size` sums the `metadata().len()` of every entry walked
under the given root, directories' own metadata lengths included, and on a
directory holding a 4-byte file and a subdirectory with another 4-byte file
it returns at least 8. -/
theorem totalDirSize_spec :
    (∀ (p : List String) (t : FsTree), totalDirSize p t = sumLens t) ∧
    (∀ (p : List String) (n s f1 f2 : String) (m m2 : Nat) (c1 c2 : List Nat),
        c1.length = 4 → c2.length = 4 →
        8 ≤ totalDirSize p (FsTree.dir n m
          [FsTree.file f1 c1, FsTree.dir s m2 [FsTree.file f2 c2]])) := by
  have h1 : ∀ (p : List String) (t : FsTree), totalDirSize p t = sumLens t := by
    intro p t
    cases t with
    | file nm c => simp [totalDirSize, walkAt, sumLens, entryLen]
    | dir nm m cs =>
      unfold totalDirSize walkAt
      rw [List.foldl_cons, foldl_add_entryLen, walkForest_sum]
      simp [sumLens, entryLen]
  refine ⟨h1, ?_⟩
  intro p n s f1 f2 m m2 c1 c2 hc1 hc2
  rw [h1]
  simp only [sumLens, sumLensForest, hc1, hc2]
  omega

/-- C9 witness: the witness tree contains two 4-byte files, one nested, and
its total size is at least 8 (here 10 + 4 + 12 + 4 = 30). -/
theorem totalDirSize_spec_witness :
    ([1, 2, 3, 4] : List Nat).length = 4 ∧ ([5, 6, 7, 8] : List Nat).length = 4 ∧
    8 ≤ totalDirSize ["tmp", "foo"] (FsTree.dir "foo" 10
      [FsTree.file "a.txt" [1, 2, 3, 4],
       FsTree.dir "sub" 12 [FsTree.file "b.txt" [5, 6, 7, 8]]]) :=
  ⟨by decide, by decide,
   totalDirSize_spec.2 ["tmp", "foo"] "foo" "sub" "a.txt" "b.txt" 10 12
     [1, 2, 3, 4] [5, 6, 7, 8] (by decide) (by decide)⟩

/-! ## with_extension lemmas -/

theorem dropExtRev_spec : ∀ (l r : List Char), dropExtRev l = some r →
    ∃ b, l = b ++ '.' :: r ∧ ('.' : Char) ∉ b := by
  intro l
  induction l with
  | nil => intro r h; cases h
  | cons c cs ih =>
    intro r h
    by_cases hc : c = '.'
    · subst hc
      rw [dropExtRev, if_pos rfl] at h
      injection h with h2
      exact ⟨[], by simp [h2], by simp⟩
    · rw [dropExtRev, if_neg hc] at h
      obtain ⟨b, hb, hnb⟩ := ih r h
      refine ⟨c :: b, by rw [hb]; rfl, ?_⟩
      simp only [List.mem_cons, not_or]
      exact ⟨fun h3 => hc h3.symm, hnb⟩

theorem setTarGzExt_ne (nm : String) : setTarGzExt nm ≠ nm := by
  rcases nm with ⟨cs⟩
  unfold setTarGzExt stemChars
  intro hcontra
  have hdata : (match dropExtRev cs.reverse with
      | none => cs
      | some rest => if rest = [] then cs else rest.reverse) ++ ".tar.gz".data = cs := by
    have := congrArg String.data hcontra
    simpa using this
  cases hdrop : dropExtRev cs.reverse with
  | none =>
    rw [hdrop] at hdata
    have := congrArg List.length hdata
    simp [List.length_append] at this
  | some rest =>
    rw [hdrop] at hdata
    dsimp only at hdata
    by_cases hrest : rest = []
    · rw [if_pos hrest] at hdata
      have := congrArg List.length hdata
      simp [List.length_append] at this
    · rw [if_neg hrest] at hdata
      obtain ⟨b, hb, hnb⟩ := dropExtRev_spec cs.reverse rest hdrop
      have hcs : cs = rest.reverse ++ '.' :: b.reverse := by
        have h2 := congrArg List.reverse hb
        rw [List.reverse_reverse] at h2
        rw [h2]
        simp [List.reverse_append]
      rw [hcs] at hdata
      have htail : ".tar.gz".data = '.' :: b.reverse := by
        have h3 := congrArg (List.drop rest.reverse.length) hdata
        rw [List.drop_left, List.drop_left] at h3
        exact h3
      have hlit : ".tar.gz".data = ['.', 't', 'a', 'r', '.', 'g', 'z'] := rfl
      rw [hlit] at htail
      injection htail with _ h4
      apply hnb
      rw [← List.mem_reverse, ← h4]
      decide

theorem withTarGzExt_append (init : List String) (last : String) :
    withTarGzExt (init ++ [last]) = init ++ [setTarGzExt last] := by
  induction init with
  | nil => rfl
  | cons x xs ih =>
    cases xs with
    | nil => rfl
    | cons y ys =>
      show withTarGzExt (x :: (y :: ys ++ [last])) = _
      rw [show withTarGzExt (x :: (y :: ys ++ [last])) =
        x :: withTarGzExt (y :: ys ++ [last]) from rfl]
      rw [ih]
      rfl

theorem withTarGzExt_length : ∀ p : List String,
    (withTarGzExt p).length = p.length := by
  intro p
  induction p with
  | nil => rfl
  | cons x xs ih =>
    cases xs with
    | nil => rfl
    | cons y ys =>
      rw [show withTarGzExt (x :: y :: ys) = x :: withTarGzExt (y :: ys) from rfl]
      simp [ih]

theorem withTarGzExt_ne : ∀ p : List String, p ≠ [] → withTarGzExt p ≠ p := by
  intro p
  induction p with
  | nil => intro h; exact absurd rfl h
  | cons x xs ih =>
    intro _
    cases xs with
    | nil =>
      rw [show withTarGzExt [x] = [setTarGzExt x] from rfl]
      intro h
      injection h with h1 _
      exact setTarGzExt_ne x h1
    | cons y ys =>
      rw [show withTarGzExt (x :: y :: ys) = x :: withTarGzExt (y :: ys) from rfl]
      intro h
      injection h with _ h2
      exact ih (by simp) h2

theorem not_isPrefix_withTarGzExt (p : List String) (hp : p ≠ []) :
    ¬ (p <+: withTarGzExt p) := by
  intro hpre
  have hlen : p.length = (withTarGzExt p).length := (withTarGzExt_length p).symm
  exact withTarGzExt_ne p hp (hpre.eq_of_length hlen).symm

/-! ## tar_and_gzip_dir lemmas -/

theorem entryEvents_kinds (srcDir : List String) :
    ∀ (es : List WalkEntry) (ev : Event), ev ∈ entryEvents srcDir es →
      (∃ r, ev = Event.appendDir r) ∨ (∃ q, ev = Event.openRead q) ∨
      (∃ r c, ev = Event.appendFile r c) := by
  intro es
  induction es with
  | nil => intro ev h; simp [entryEvents] at h
  | cons e es2 ih =>
    intro ev h
    simp only [entryEvents] at h
    rcases List.mem_append.1 h with h1 | h2
    · rcases e with ⟨ep, ek⟩
      by_cases hr : ep = srcDir
      · rw [if_pos hr] at h1
        simp at h1
      · rw [if_neg hr] at h1
        cases ek with
        | dir m =>
          rw [List.mem_singleton] at h1
          exact Or.inl ⟨_, h1⟩
        | file c =>
          rcases List.mem_cons.1 h1 with rfl | h3
          · exact Or.inr (Or.inl ⟨_, rfl⟩)
          · rw [List.mem_singleton] at h3
            exact Or.inr (Or.inr ⟨_, _, h3⟩)
    · exact ih ev h2

theorem tarAndGzipDir_ok_oracle (o : TarOracle) (srcDir : List String) (t : FsTree)
    (p : List String) (hok : (tarAndGzipDir o srcDir t).1 = Except.ok p) :
    o.createOk = true ∧ o.gzipNewOk = true ∧ o.tarFinOk = true ∧
    o.gzipFinOk = true ∧ o.flushOk = true := by
  rcases o with ⟨c, g, tf, gf, fl⟩
  cases c <;> cases g <;> cases tf <;> cases gf <;> cases fl <;>
    simp_all [tarAndGzipDir]

theorem tarAndGzipDir_success_eq (o : TarOracle) (srcDir : List String) (t : FsTree)
    (hc : o.createOk = true) (hg : o.gzipNewOk = true) (htf : o.tarFinOk = true)
    (hgf : o.gzipFinOk = true) (hfl : o.flushOk = true) :
    tarAndGzipDir o srcDir t =
      (Except.ok (withTarGzExt srcDir),
        (Event.createFile (withTarGzExt srcDir) ::
          entryEvents srcDir (walkAt srcDir t)) ++
          [Event.tarFinalize, Event.gzipFinish, Event.fileFlush]) := by
  simp [tarAndGzipDir, hc, hg, htf, hgf, hfl]

/-! ## Claim theorem: artifact naming (tar_and_gzip_dir) -/

/-- C6: a successful `tar_and_gzip_dir` on a source directory whose final
path component is `last` returns the sibling path obtained by replacing
`last`'s extension with `tar.gz` (the parent components are untouched), and
the single file-creation event of the run happened exactly at the returned
path. -/
theorem tarAndGzipDir_artifact_path (o : TarOracle) (init : List String)
    (last : String) (t : FsTree) (p : List String)
    (hok : (tarAndGzipDir o (init ++ [last]) t).1 = Except.ok p) :
    p = init ++ [setTarGzExt last] ∧
    p.dropLast = (init ++ [last]).dropLast ∧
    ((tarAndGzipDir o (init ++ [last]) t).2).filter (fun ev => ev.isCreate) =
      [Event.createFile p] := by
  obtain ⟨hc, hg, htf, hgf, hfl⟩ := tarAndGzipDir_ok_oracle o _ t p hok
  have heq := tarAndGzipDir_success_eq o (init ++ [last]) t hc hg htf hgf hfl
  rw [heq] at hok
  dsimp only at hok
  injection hok with hp
  have hp2 : p = init ++ [setTarGzExt last] := by
    rw [← hp, withTarGzExt_append]
  refine ⟨hp2, ?_, ?_⟩
  · rw [hp2, List.dropLast_concat, List.dropLast_concat]
  · rw [heq]
    dsimp only
    rw [List.filter_append, List.filter_cons]
    have hone : (Event.createFile (withTarGzExt (init ++ [last]))).isCreate = true := rfl
    rw [if_pos hone]
    have hnone1 : (entryEvents (init ++ [last]) (walkAt (init ++ [last]) t)).filter
        (fun ev => ev.isCreate) = [] := by
      rw [List.filter_eq_nil]
      intro ev hev
      rcases entryEvents_kinds (init ++ [last]) (walkAt (init ++ [last]) t) ev hev with
        ⟨r, rfl⟩ | ⟨q, rfl⟩ | ⟨r, c, rfl⟩ <;> simp [Event.isCreate]
    have hnone2 : ([Event.tarFinalize, Event.gzipFinish, Event.fileFlush] :
        List Event).filter (fun ev => ev.isCreate) = [] := rfl
    rw [hnone1, hnone2, hp]
    rfl

/-- C6 witness: archiving `tmp/foo` produces `tmp/foo.tar.gz`, a sibling,
created exactly there. -/
theorem tarAndGzipDir_artifact_path_witness :
    (tarAndGzipDir wOracle (["tmp"] ++ ["foo"]) wTree).1 =
      Except.ok (["tmp", "foo.tar.gz"] : List String) ∧
    ((["tmp", "foo.tar.gz"] : List String) = ["tmp"] ++ [setTarGzExt "foo"] ∧
     (["tmp", "foo.tar.gz"] : List String).dropLast = (["tmp"] ++ ["foo"]).dropLast ∧
     ((tarAndGzipDir wOracle (["tmp"] ++ ["foo"]) wTree).2).filter
        (fun ev => ev.isCreate) = [Event.createFile ["tmp", "foo.tar.gz"]]) :=
  ⟨by simp [tarAndGzipDir, wOracle, setTarGzExt, stemChars, dropExtRev, withTarGzExt],
   tarAndGzipDir_artifact_path wOracle ["tmp"] "foo" wTree ["tmp", "foo.tar.gz"]
     (by simp [tarAndGzipDir, wOracle, setTarGzExt, stemChars, dropExtRev, withTarGzExt])⟩

/-! ## Claim theorem: finalization order (tar_and_gzip_dir) -/

/-- C7: on every successful call the trace ends with the tar trailer, then
the gzip trailer, then the file flush, in that order and nowhere else; and
a failure of any of these three finalization stages makes the call return
an error. -/
theorem tarAndGzipDir_finalize_order (o : TarOracle) (srcDir : List String)
    (t : FsTree) :
    ((∃ p, (tarAndGzipDir o srcDir t).1 = Except.ok p) →
      ∃ pre, (tarAndGzipDir o srcDir t).2 =
          pre ++ [Event.tarFinalize, Event.gzipFinish, Event.fileFlush] ∧
        Event.tarFinalize ∉ pre ∧ Event.gzipFinish ∉ pre ∧ Event.fileFlush ∉ pre) ∧
    ((o.tarFinOk = false ∨ o.gzipFinOk = false ∨ o.flushOk = false) →
      ∃ e, (tarAndGzipDir o srcDir t).1 = Except.error e) := by
  constructor
  · rintro ⟨p, hok⟩
    obtain ⟨hc, hg, htf, hgf, hfl⟩ := tarAndGzipDir_ok_oracle o srcDir t p hok
    have heq := tarAndGzipDir_success_eq o srcDir t hc hg htf hgf hfl
    refine ⟨Event.createFile (withTarGzExt srcDir) ::
      entryEvents srcDir (walkAt srcDir t), ?_, ?_, ?_, ?_⟩
    · rw [heq]
    all_goals
      intro hmem
      rcases List.mem_cons.1 hmem with hc2 | hm2
      · cases hc2
      · rcases entryEvents_kinds srcDir (walkAt srcDir t) _ hm2 with
          ⟨r, h⟩ | ⟨q, h⟩ | ⟨r, c2, h⟩ <;> cases h
  · intro hfail
    rcases o with ⟨c, g, tf, gf, fl⟩
    simp only at hfail
    cases c <;> cases g <;> cases tf <;> cases gf <;> cases fl <;>
      simp_all [tarAndGzipDir]

/-- C7 witness: with every stage succeeding the trace ends with the three
finalization events in order; failing the gzip finish stage yields an
error. -/
theorem tarAndGzipDir_finalize_order_witness :
    ((∃ p, (tarAndGzipDir wOracle ["tmp", "foo"] wTree).1 = Except.ok p) ∧
     (∃ pre, (tarAndGzipDir wOracle ["tmp", "foo"] wTree).2 =
          pre ++ [Event.tarFinalize, Event.gzipFinish, Event.fileFlush] ∧
        Event.tarFinalize ∉ pre ∧ Event.gzipFinish ∉ pre ∧ Event.fileFlush ∉ pre)) ∧
    ((wOracleGzipFail.gzipFinOk = false) ∧
     (∃ e, (tarAndGzipDir wOracleGzipFail ["tmp", "foo"] wTree).1 = Except.error e)) :=
  ⟨⟨⟨["tmp", "foo.tar.gz"],
     by simp [tarAndGzipDir, wOracle, setTarGzExt, stemChars, dropExtRev, withTarGzExt]⟩,
    (tarAndGzipDir_finalize_order wOracle ["tmp", "foo"] wTree).1
      ⟨["tmp", "foo.tar.gz"],
       by simp [tarAndGzipDir, wOracle, setTarGzExt, stemChars, dropExtRev, withTarGzExt]⟩⟩,
   ⟨by decide,
    (tarAndGzipDir_finalize_order wOracleGzipFail ["tmp", "foo"] wTree).2
      (Or.inr (Or.inl (by decide)))⟩⟩

/-! ## Claim theorem: frame effect (tar_and_gzip_dir) -/

theorem lookupNode_filter (p q : List String) (hnp : ¬ (p <+: q)) :
    ∀ fs : List (List String × FsNode),
      lookupNode (fs.filter (fun pr => decide (¬ (p <+: pr.1)))) q =
        lookupNode fs q := by
  intro fs
  induction fs with
  | nil => rfl
  | cons x rest ih =>
    rcases x with ⟨r, nd⟩
    rw [List.filter_cons]
    by_cases hkeep : (p <+: r)
    · have hr2 : r ≠ q := fun h => hnp (h ▸ hkeep)
      rw [if_neg (by simpa using hkeep), ih]
      rw [show lookupNode ((r, nd) :: rest) q = lookupNode rest q from by
        rw [lookupNode, if_neg hr2]]
    · rw [if_pos (by simpa using hkeep)]
      by_cases hr : r = q
      · subst hr
        rw [lookupNode, lookupNode, if_pos rfl, if_pos rfl]
      · rw [lookupNode, lookupNode, if_neg hr, if_neg hr, ih]

theorem applyEvent_frame (q : List String) (fs : List (List String × FsNode))
    (ev : Event) (hev : evPreserves q ev) :
    lookupNode (applyEvent fs ev) q = lookupNode fs q := by
  cases ev with
  | createFile p2 =>
    have hne : p2 ≠ q := hev
    rw [show applyEvent fs (Event.createFile p2) =
      (p2, FsNode.fileNode []) :: fs from rfl]
    rw [lookupNode, if_neg hne]
  | removeDirAll p2 => exact lookupNode_filter p2 q hev fs
  | openRead p2 => rfl
  | appendDir r => rfl
  | appendFile r c => rfl
  | tarFinalize => rfl
  | gzipFinish => rfl
  | fileFlush => rfl

theorem applyTrace_frame (q : List String) :
    ∀ (evs : List Event) (fs : List (List String × FsNode)),
      (∀ ev ∈ evs, evPreserves q ev) →
      lookupNode (applyTrace fs evs) q = lookupNode fs q := by
  intro evs
  induction evs with
  | nil => intro fs _; rfl
  | cons ev rest ih =>
    intro fs h
    have hstep := applyEvent_frame q fs ev (h ev (by simp))
    have htail := ih (applyEvent fs ev) (fun e he => h e (by simp [he]))
    calc lookupNode (applyTrace fs (ev :: rest)) q
        = lookupNode (applyTrace (applyEvent fs ev) rest) q := rfl
      _ = lookupNode (applyEvent fs ev) q := htail
      _ = lookupNode fs q := hstep

theorem core_trace_events (srcDir : List String) (t : FsTree) (l : List Event)
    (hl : ∀ x ∈ l, TarTraceEvent srcDir x) :
    ∀ ev ∈ (Event.createFile (withTarGzExt srcDir) ::
      entryEvents srcDir (walkAt srcDir t)) ++ l, TarTraceEvent srcDir ev := by
  intro ev hev
  rcases List.mem_append.1 hev with h1 | h2
  · rcases List.mem_cons.1 h1 with rfl | h3
    · exact Or.inl rfl
    · rcases entryEvents_kinds srcDir (walkAt srcDir t) ev h3 with
        ⟨r, h⟩ | ⟨q2, h⟩ | ⟨r, c2, h⟩
      · exact Or.inr (Or.inl ⟨r, h⟩)
      · exact Or.inr (Or.inr (Or.inl ⟨q2, h⟩))
      · exact Or.inr (Or.inr (Or.inr (Or.inl ⟨r, c2, h⟩)))
  · exact hl ev h2

theorem tarAndGzipDir_trace_events (o : TarOracle) (srcDir : List String)
    (t : FsTree) : ∀ ev ∈ (tarAndGzipDir o srcDir t).2, TarTraceEvent srcDir ev := by
  intro ev hev
  rcases o with ⟨c, g, tf, gf, fl⟩
  cases c with
  | false => simp [tarAndGzipDir] at hev
  | true =>
    cases g with
    | false =>
      simp only [tarAndGzipDir, if_true, Bool.false_eq_true, if_false] at hev
      rw [List.mem_singleton] at hev
      exact Or.inl hev
    | true =>
      have hcore := core_trace_events srcDir t
      cases tf with
      | false =>
        refine hcore [] (by simp) ev ?_
        rw [List.append_nil]
        simpa [tarAndGzipDir] using hev
      | true =>
        cases gf with
        | false =>
          refine hcore [Event.tarFinalize] ?_ ev ?_
          · intro x hx
            rw [List.mem_singleton] at hx
            exact Or.inr (Or.inr (Or.inr (Or.inr (Or.inl hx))))
          · simpa [tarAndGzipDir] using hev
        | true =>
          cases fl with
          | false =>
            refine hcore [Event.tarFinalize, Event.gzipFinish] ?_ ev ?_
            · intro x hx
              rcases List.mem_cons.1 hx with rfl | hx2
              · exact Or.inr (Or.inr (Or.inr (Or.inr (Or.inl rfl))))
              · rw [List.mem_singleton] at hx2
                exact Or.inr (Or.inr (Or.inr (Or.inr (Or.inr (Or.inl hx2)))))
            · simpa [tarAndGzipDir] using hev
          | true =>
            refine hcore [Event.tarFinalize, Event.gzipFinish, Event.fileFlush] ?_ ev ?_
            · intro x hx
              rcases List.mem_cons.1 hx with rfl | hx2
              · exact Or.inr (Or.inr (Or.inr (Or.inr (Or.inl rfl))))
              rcases List.mem_cons.1 hx2 with rfl | hx3
              · exact Or.inr (Or.inr (Or.inr (Or.inr (Or.inr (Or.inl rfl)))))
              rw [List.mem_singleton] at hx3
              exact Or.inr (Or.inr (Or.inr (Or.inr (Or.inr (Or.inr hx3)))))
            · simpa [tarAndGzipDir] using hev

/-- C10: `tar_and_gzip_dir` never deletes or modifies the source directory
or anything under it, whether it succeeds or fails: applying its event
trace to any filesystem leaves every path at or below the source directory
untouched (the only created path is the sibling artifact), and the trace
contains no recursive-deletion event at all — despite the function's doc
comment claiming the original directory is deleted. -/
theorem tarAndGzipDir_frame (o : TarOracle) (srcDir : List String) (t : FsTree)
    (fs : List (List String × FsNode)) (q : List String)
    (hp : srcDir ≠ []) (hq : srcDir <+: q) :
    lookupNode (applyTrace fs (tarAndGzipDir o srcDir t).2) q = lookupNode fs q ∧
    (∀ ev ∈ (tarAndGzipDir o srcDir t).2, ∀ r, ev ≠ Event.removeDirAll r) := by
  have hqne : withTarGzExt srcDir ≠ q := by
    intro h
    rw [← h] at hq
    exact not_isPrefix_withTarGzExt srcDir hp hq
  have hpres : ∀ ev ∈ (tarAndGzipDir o srcDir t).2, evPreserves q ev := by
    intro ev hev
    rcases tarAndGzipDir_trace_events o srcDir t ev hev with
      rfl | ⟨r, rfl⟩ | ⟨r, rfl⟩ | ⟨r, c, rfl⟩ | rfl | rfl | rfl
    · exact hqne
    all_goals trivial
  refine ⟨applyTrace_frame q _ fs hpres, ?_⟩
  intro ev hev r
  rcases tarAndGzipDir_trace_events o srcDir t ev hev with
    rfl | ⟨r2, rfl⟩ | ⟨r2, rfl⟩ | ⟨r2, c2, rfl⟩ | rfl | rfl | rfl <;> simp

/-- C10 witness: archiving `tmp/foo` leaves the lookup of the source file
`tmp/foo/a.txt` unchanged and emits no deletion event. -/
theorem tarAndGzipDir_frame_witness :
    (["tmp", "foo"] : List String) ≠ [] ∧
    (["tmp", "foo"] : List String) <+: ["tmp", "foo", "a.txt"] ∧
    (lookupNode (applyTrace wFs (tarAndGzipDir wOracle ["tmp", "foo"] wTree).2)
        ["tmp", "foo", "a.txt"] = lookupNode wFs ["tmp", "foo", "a.txt"] ∧
     (∀ ev ∈ (tarAndGzipDir wOracle ["tmp", "foo"] wTree).2,
        ∀ r, ev ≠ Event.removeDirAll r)) :=
  ⟨by decide, by decide,
   tarAndGzipDir_frame wOracle ["tmp", "foo"] wTree wFs ["tmp", "foo", "a.txt"]
     (by decide) (by decide)⟩
